import Mathlib

/-!
# mcp-obsidian-go: tool handlers and backend client

A shallow embedding of `internal/obsidian/obsidian.go` (the backend client) and
`internal/tools/tools.go` (the tool handlers), followed by theorems about them.

Conventions of the embedding:

* A Go `error` is represented by its message (`Error := String`); a Go result pair
  `(v, err)` is the Lean pair `(v, none)` / `(v, some msg)`.
* Every request that the client hands to `Obsidian.call` is appended to an explicit
  history `List Call`; a handler "makes no backend call" exactly when it returns the
  history it was given.
* What the vault server answers (transport outcome and JSON decoding into the
  destination type) is a field of the client, a function of the history so far and of
  the request, so a server may answer the same request differently over time.
* Library routines whose text is not part of the repository (`json.Marshal`,
  `strconv.Quote`, `url.QueryEscape`, the process clock) are fields of `Runtime`.
* The accessors `GetString`, `GetInt`, `GetBool` of the `mcp-go` request, and the Go
  routines `strings.TrimPrefix`, `strings.ReplaceAll`, `strconv.Atoi`, `strconv.ParseBool`,
  `filepath.Base`, `filepath.Ext` are written out after their library behaviour, on
  characters (the patterns involved are ASCII).
* A number of the parameter bag is a `float64`: `GetInt` returns `int(float64(n))` for the
  JSON number `n`, on a 64-bit `int`.
* The URL of a request is the string handed to `Obsidian.call`; the parsing that
  `http.NewRequestWithContext` does on it belongs to the server's answer.
* Logging has no effect on results and is left out.
-/

set_option autoImplicit false

namespace McpObsidian

/-! ## Go strings -/

/-- Go `strings.TrimPrefix` on character lists: drop `pre` once when `s` starts with it. -/
def trimPrefixChars (s pre : List Char) : List Char :=
  if pre.isPrefixOf s then s.drop pre.length else s

/-- Go `strings.TrimPrefix`. -/
def TrimPrefix (s pre : String) : String :=
  ⟨trimPrefixChars s.data pre.data⟩

/-- Left-to-right scan of Go `strings.Replace` for a non-empty `old`: `skip` counts the
characters of a match that was just replaced and still have to be passed over. -/
def replaceFrom (old new : List Char) : Nat → List Char → List Char
  | _, [] => []
  | skip + 1, _ :: cs => replaceFrom old new skip cs
  | 0, c :: cs =>
    if old.isPrefixOf (c :: cs) then new ++ replaceFrom old new (old.length - 1) cs
    else c :: replaceFrom old new 0 cs

/-- Go `strings.ReplaceAll` on character lists: non-overlapping matches of `old`, leftmost
first; an empty `old` matches before every character and at the end. -/
def replaceAllChars (s old new : List Char) : List Char :=
  if old = new then s
  else if old = [] then new ++ s.flatMap (fun c => c :: new)
  else replaceFrom old new 0 s

/-- Go `strings.ReplaceAll`. -/
def ReplaceAll (s old new : String) : String :=
  ⟨replaceAllChars s.data old.data new.data⟩

/-- Go `strconv.Atoi` for a 64-bit `int`: optional sign, then one or more decimal digits,
and the value has to fit. -/
def Atoi (s : String) : Option Int :=
  let signed : Bool × List Char :=
    match s.data with
    | '-' :: r => (true, r)
    | '+' :: r => (false, r)
    | r => (false, r)
  if signed.2 = [] ∨ signed.2.all Char.isDigit = false then none
  else
    let n : Int := signed.2.foldl (fun a c => 10 * a + ((c.toNat : Int) - 48)) 0
    let v : Int := if signed.1 then -n else n
    if -(2 ^ 63) ≤ v ∧ v < 2 ^ 63 then some v else none

/-- Go `strconv.ParseBool`. -/
def ParseBool (s : String) : Option Bool :=
  if s ∈ ["1", "t", "T", "TRUE", "true", "True"] then some true
  else if s ∈ ["0", "f", "F", "FALSE", "false", "False"] then some false
  else none

/-! ## Go numbers: a JSON number read as `float64` and converted to `int` -/

/-- The least exponent `e`, from `e` upwards, at which `m / 2 ^ e` fits the 53 bits of a
`float64` significand; `fuel` bounds the search and `m` itself is always enough. -/
def significandShift (m : Nat) : Nat → Nat → Nat
  | 0, e => e
  | fuel + 1, e => if m / 2 ^ e < 2 ^ 53 then e else significandShift m fuel (e + 1)

/-- The natural number `m` rounded to a multiple of `2 ^ e`, to the nearest one and to the even
significand on a tie (`e` at least 1). -/
def roundAt (e m : Nat) : Nat :=
  let q := m / 2 ^ e
  let r := m % 2 ^ e
  let half := 2 ^ (e - 1)
  (if half < r ∨ (r = half ∧ q % 2 = 1) then q + 1 else q) * 2 ^ e

/-- The `float64` nearest to the natural number `m`, as a natural number: `m` itself up to
`2 ^ 53`, beyond that `m` rounded to 53 significant bits. -/
def float64OfNat (m : Nat) : Nat :=
  if m ≤ 2 ^ 53 then m else roundAt (significandShift m m 1) m

/-- The `float64` that decoding a JSON number with the integral value `n` gives, as an
integer. -/
def roundToFloat64 (n : Int) : Int :=
  if n < 0 then -((float64OfNat n.natAbs : Nat) : Int) else ((float64OfNat n.natAbs : Nat) : Int)

/-- Go `int(v)` for an integral `float64` on a 64-bit platform. Go leaves the result for a
value outside the range of `int` to the implementation; this is the one of amd64, the least
`int`. -/
def float64ToInt (v : Int) : Int :=
  if -(2 ^ 63) ≤ v ∧ v < 2 ^ 63 then v else -(2 ^ 63)

/-- What `GetInt` returns for the JSON number with the integral value `n`: the `float64` it was
decoded into, converted to `int`. -/
def jsonNumberToInt (n : Int) : Int :=
  float64ToInt (roundToFloat64 n)

/-! ## Dynamic values and the tool-call envelope -/

/-- A Go `any` holding decoded JSON. A number is kept as the integer the document writes; only
integral numbers are modelled, and what a `float64` makes of one is `roundToFloat64`. -/
inductive Any where
  | null
  | bool (b : Bool)
  | number (n : Int)
  | string (s : String)
  | array (xs : List Any)
  | object (kvs : List (String × Any))

/-- The error of a Go `error` value: its message. -/
abbrev Error := String

/-- The request of `mcp.CallToolRequest`: the parameter bag. -/
structure CallToolRequest where
  Arguments : List (String × Any)

/-- The accessor `CallToolRequest.GetString`: the value under `key` when it is a string, the
default otherwise. -/
def CallToolRequest.GetString (r : CallToolRequest) (key : String) (defaultValue : String) :
    String :=
  match r.Arguments.lookup key with
  | some (Any.string s) => s
  | _ => defaultValue

/-- The accessor `CallToolRequest.GetInt`: a number, which the bag holds as a `float64`,
through `int(v)`; a string through `Atoi`; the default otherwise. -/
def CallToolRequest.GetInt (r : CallToolRequest) (key : String) (defaultValue : Int) : Int :=
  match r.Arguments.lookup key with
  | some (Any.number n) => jsonNumberToInt n
  | some (Any.string s) =>
    match Atoi s with
    | some i => i
    | none => defaultValue
  | _ => defaultValue

/-- The accessor `CallToolRequest.GetBool`: a boolean as it is, a string through `ParseBool`, a
number as `v != 0`, the default otherwise. -/
def CallToolRequest.GetBool (r : CallToolRequest) (key : String) (defaultValue : Bool) : Bool :=
  match r.Arguments.lookup key with
  | some (Any.bool b) => b
  | some (Any.string s) =>
    match ParseBool s with
    | some b => b
    | none => defaultValue
  | some (Any.number n) => n != 0
  | _ => defaultValue

/-- The result envelope `mcp.CallToolResult`: one text content and the error flag. -/
structure CallToolResult where
  Text : String
  IsError : Bool

/-- The builder `mcp.NewToolResultText`. -/
def NewToolResultText (text : String) : CallToolResult :=
  { Text := text, IsError := false }

/-- The builder `mcp.NewToolResultError`. -/
def NewToolResultError (text : String) : CallToolResult :=
  { Text := text, IsError := true }

/-! ## Backend client (`internal/obsidian`) -/

/-- The fields of `config.Config` that the client reads. -/
structure Config where
  ObsidianAPIKey : String
  ObsidianAPIHost : String

/-- One invocation of `Obsidian.call`: method, URL, request body and content type. -/
structure Call where
  method : String
  path : String
  body : Option String
  contentType : String

/-- The `stat` member of `FileContents`. -/
structure Stat where
  CTime : Int
  MTime : Int
  Size : Int

/-- The struct `FileContents`. -/
structure FileContents where
  Content : String
  Frontmatter : List (String × Any)
  Path : String
  Stat : Stat
  Tags : List String

/-- The Go zero value `FileContents{}`. -/
def FileContents.zero : FileContents :=
  { Content := "", Frontmatter := [], Path := "", Stat := ⟨0, 0, 0⟩, Tags := [] }

/-- One element of `SearchResult.Matches`. -/
structure SearchMatch where
  Start : Int
  End : Int
  Context : String

/-- The struct `SearchResult`; the score is a finite number on which nothing is computed. -/
structure SearchResult where
  Filename : String
  Score : Rat
  Matches : List SearchMatch

/-- The struct `ComplexResult`. -/
structure ComplexResult where
  Filename : String
  Result : Any

/-- What executing a request and decoding the body into the destination type gives, per
destination type, as a function of the requests made so far and of the request. -/
structure Client where
  files : List Call → Call → Except Error (List String)
  file : List Call → Call → Except Error FileContents
  notes : List Call → Call → Except Error (List FileContents)
  search : List Call → Call → Except Error (List SearchResult)
  complex : List Call → Call → Except Error (List ComplexResult)

/-- The struct `Obsidian`. -/
structure Obsidian where
  conf : Config
  client : Client

/-- The method `Obsidian.call`: build the request, execute it, decode the body. The request is
recorded in the history; `respond` gives the outcome for the destination type. -/
def Obsidian.call {α : Type} (respond : List Call → Call → Except Error α) (hist : List Call)
    (method path : String) (body : Option String) (contentType : String) :
    Except Error α × List Call :=
  let req : Call := { method := method, path := path, body := body, contentType := contentType }
  (respond hist req, hist ++ [req])

/-- Library routines used by the client and the handlers. -/
structure Runtime where
  Quote : String → String
  QueryEscape : String → String
  nowDate : String
  nowDateTime : String
  marshalStrings : List String → Except Error String
  marshalFile : FileContents → Except Error String
  marshalFiles : List FileContents → Except Error String
  marshalSearch : List SearchResult → Except Error String
  marshalComplex : List ComplexResult → Except Error String

/-- The method `Obsidian.ListFilesInVault`. -/
def Obsidian.ListFilesInVault (o : Obsidian) (hist : List Call) :
    (List String × Option Error) × List Call :=
  let path := o.conf.ObsidianAPIHost ++ "/vault/"
  match Obsidian.call o.client.files hist "GET" path none "" with
  | (Except.error err, h) => (([], some err), h)
  | (Except.ok result, h) => ((result, none), h)

/-- The method `Obsidian.ListFilesInDir`. -/
def Obsidian.ListFilesInDir (o : Obsidian) (hist : List Call) (dir : String) :
    (List String × Option Error) × List Call :=
  let dir := TrimPrefix dir "/"
  let dir := ReplaceAll dir " " "%20"
  let path := o.conf.ObsidianAPIHost ++ "/vault/" ++ dir
  match Obsidian.call o.client.files hist "GET" path none "" with
  | (Except.error err, h) => (([], some err), h)
  | (Except.ok result, h) => ((result, none), h)

/-- The method `Obsidian.GetFileContents`. -/
def Obsidian.GetFileContents (o : Obsidian) (hist : List Call) (filepath : String) :
    (FileContents × Option Error) × List Call :=
  let filepath := TrimPrefix filepath "/"
  let filepath := ReplaceAll filepath " " "%20"
  let path := o.conf.ObsidianAPIHost ++ "/vault/" ++ filepath
  match Obsidian.call o.client.file hist "GET" path none "" with
  | (Except.error err, h) => (({ FileContents.zero with Path := filepath }, some err), h)
  | (Except.ok result, h) => ((result, none), h)

/-- The method `Obsidian.ComplexSearch`. -/
def Obsidian.ComplexSearch (o : Obsidian) (hist : List Call) (query queryType : String) :
    (List ComplexResult × Option Error) × List Call :=
  let path := o.conf.ObsidianAPIHost ++ "/search/"
  match Obsidian.call o.client.complex hist "POST" path (some query) queryType with
  | (Except.error err, h) => (([], some err), h)
  | (Except.ok result, h) => ((result, none), h)

/-- The loop of `Obsidian.GetFileByName` over the matches, with the results so far. -/
def Obsidian.GetFileByName.loop (o : Obsidian) (includeContent : Bool) :
    List ComplexResult → List FileContents → List Call →
    (List FileContents × Option Error) × List Call
  | [], results, h => ((results, none), h)
  | file :: rest, results, h =>
    match o.GetFileContents h file.Filename with
    | ((_, some err), h1) => (([], some err), h1)
    | ((contents, none), h1) =>
      let contents := if !includeContent then { contents with Content := "" } else contents
      Obsidian.GetFileByName.loop o includeContent rest (results ++ [contents]) h1

/-- The method `Obsidian.GetFileByName`. -/
def Obsidian.GetFileByName (rt : Runtime) (o : Obsidian) (hist : List Call) (filename : String)
    (includeContent : Bool) : (List FileContents × Option Error) × List Call :=
  match o.ComplexSearch hist ("TABLE WHERE file.name=" ++ rt.Quote filename)
      "application/vnd.olrapi.dataview.dql+txt" with
  | ((_, some err), h) => (([], some err), h)
  | ((files, none), h) => Obsidian.GetFileByName.loop o includeContent files [] h

/-- The method `Obsidian.SimpleSearch`. -/
def Obsidian.SimpleSearch (rt : Runtime) (o : Obsidian) (hist : List Call) (query : String)
    (length : Int) : (List SearchResult × Option Error) × List Call :=
  let path := o.conf.ObsidianAPIHost ++ "/search/simple/?query=" ++ rt.QueryEscape query
    ++ "&contextLength=" ++ toString length
  match Obsidian.call o.client.search hist "POST" path none "" with
  | (Except.error err, h) => (([], some err), h)
  | (Except.ok result, h) => ((result, none), h)

/-- The method `Obsidian.GetPeriodicNote`. -/
def Obsidian.GetPeriodicNote (o : Obsidian) (hist : List Call) (period : String) :
    (FileContents × Option Error) × List Call :=
  let path := o.conf.ObsidianAPIHost ++ "/periodic/" ++ period
  match Obsidian.call o.client.file hist "GET" path none "" with
  | (Except.error err, h) => ((FileContents.zero, some err), h)
  | (Except.ok result, h) => ((result, none), h)

/-- The method `Obsidian.GetPeriodicNoteByDate`. -/
def Obsidian.GetPeriodicNoteByDate (o : Obsidian) (hist : List Call) (period date : String) :
    (FileContents × Option Error) × List Call :=
  let path := o.conf.ObsidianAPIHost ++ "/periodic/" ++ period ++ "/" ++ ReplaceAll date "-" "/"
  match Obsidian.call o.client.file hist "GET" path none "" with
  | (Except.error err, h) => ((FileContents.zero, some err), h)
  | (Except.ok result, h) => ((result, none), h)

/-- The method `Obsidian.GetPeriodicNoteRecent`. -/
def Obsidian.GetPeriodicNoteRecent (o : Obsidian) (hist : List Call) (period : String)
    (limit : Int) (content : Bool) : (List FileContents × Option Error) × List Call :=
  let path := o.conf.ObsidianAPIHost ++ "/periodic/" ++ period ++ "/recent?limit="
    ++ toString limit ++ "&includeContent=" ++ toString content
  match Obsidian.call o.client.notes hist "GET" path none "" with
  | (Except.error err, h) => (([], some err), h)
  | (Except.ok result, h) => ((result, none), h)

/-! ## Tool handlers (`internal/tools`) -/

/-- The result pair of a handler: the envelope (a pointer, hence optional) and the
protocol-level error. -/
abbrev HandlerResult := Option CallToolResult × Option Error

/-- The helper `toError`. -/
def toError (err : Error) : HandlerResult :=
  (some (NewToolResultError err), none)

/-- The helper `toJSON`, over the marshaller of the value. -/
def toJSON {α : Type} (marshal : α → Except Error String) (v : α) : HandlerResult :=
  match marshal v with
  | Except.error err => (none, some err)
  | Except.ok out => (some (NewToolResultText out), none)

/-- The tail shared by the handlers that marshal themselves: `json.Marshal`, then `toError`
on failure and a text result otherwise. -/
def marshalOrError {α : Type} (marshal : α → Except Error String) (v : α) : HandlerResult :=
  match marshal v with
  | Except.error err => toError err
  | Except.ok out => (some (NewToolResultText out), none)

/-- The periods accepted by the periodic-note handlers. -/
def periods : List String := ["daily", "weekly", "monthly", "quarterly", "yearly"]

/-- The message of the error for a period outside `periods`. -/
def invalidPeriod (period : String) : Error :=
  "invalid period: " ++ period ++ ", must be one of daily, weekly, monthly, quarterly, yearly"

/-- The handler `calendarTool.Handler`. -/
def calendarTool.Handler (rt : Runtime) (hist : List Call) (_request : CallToolRequest) :
    HandlerResult × List Call :=
  ((some (NewToolResultText rt.nowDateTime), none), hist)

/-- The handler `listFilesInVault.Handler`. -/
def listFilesInVault.Handler (rt : Runtime) (o : Obsidian) (hist : List Call)
    (_request : CallToolRequest) : HandlerResult × List Call :=
  match o.ListFilesInVault hist with
  | ((_, some err), h) => (toError err, h)
  | ((files, none), h) => (toJSON rt.marshalStrings files, h)

/-- The handler `listFilesInDir.Handler`. -/
def listFilesInDir.Handler (rt : Runtime) (o : Obsidian) (hist : List Call)
    (request : CallToolRequest) : HandlerResult × List Call :=
  let dirpath := request.GetString "dirpath" ""
  if dirpath = "" then (toError "dirpath is required", hist)
  else
    match o.ListFilesInDir hist dirpath with
    | ((_, some err), h) => (toError err, h)
    | ((files, none), h) => (toJSON rt.marshalStrings files, h)

/-- The handler `getFileContents.Handler`. -/
def getFileContents.Handler (rt : Runtime) (o : Obsidian) (hist : List Call)
    (request : CallToolRequest) : HandlerResult × List Call :=
  let filepath := request.GetString "filepath" ""
  if filepath = "" then (toError "filepath is required", hist)
  else
    match o.GetFileContents hist filepath with
    | ((_, some err), h) => (toError err, h)
    | ((content, none), h) => (marshalOrError rt.marshalFile content, h)

/-- Go `filepath.Base` on character lists (separator `/`): `.` for the empty path, trailing
separators stripped, then the last element, and `/` when nothing is left. -/
def baseChars (path : List Char) : List Char :=
  if path = [] then ['.']
  else
    let stripped := (path.reverse.dropWhile (fun c => c == '/')).reverse
    let last := (stripped.reverse.takeWhile (fun c => c != '/')).reverse
    if last = [] then ['/'] else last

/-- Go `filepath.Base`. -/
def Base (path : String) : String :=
  ⟨baseChars path.data⟩

/-- Go `filepath.Ext` on character lists: the suffix starting at the last dot of the last
element, empty when that element has no dot. -/
def extChars (path : List Char) : List Char :=
  let last := path.reverse.takeWhile (fun c => c != '/')
  let tail := last.takeWhile (fun c => c != '.')
  if tail.length < last.length then '.' :: tail.reverse else []

/-- Go `filepath.Ext`. -/
def Ext (path : String) : String :=
  ⟨extChars path.data⟩

/-- The two lines of `getFileByName.Handler` under "only use the last part of file and remove
the extension". -/
def getFileByName.bareName (filename : String) : String :=
  let filename := Base filename
  if Ext filename ≠ "" then
    (⟨filename.data.take (filename.data.length - (Ext filename).data.length)⟩ : String)
  else filename

/-- The handler `getFileByName.Handler`. -/
def getFileByName.Handler (rt : Runtime) (o : Obsidian) (hist : List Call)
    (request : CallToolRequest) : HandlerResult × List Call :=
  let filename := request.GetString "filename" ""
  if filename = "" then (toError "filename is required", hist)
  else
    let filename := getFileByName.bareName filename
    let includeContent := request.GetBool "include_content" false
    match Obsidian.GetFileByName rt o hist filename includeContent with
    | ((_, some err), h) => (toError err, h)
    | ((content, none), h) => (marshalOrError rt.marshalFiles content, h)

/-- The handler `simpleSearchTool.Handler`. -/
def simpleSearchTool.Handler (rt : Runtime) (o : Obsidian) (hist : List Call)
    (request : CallToolRequest) : HandlerResult × List Call :=
  let query := request.GetString "query" ""
  if query = "" then (toError "query is required", hist)
  else
    let contentLength := request.GetInt "content_length" 100
    if contentLength ≤ 0 then (toError "content_length must be greater than 0", hist)
    else
      match Obsidian.SimpleSearch rt o hist query contentLength with
      | ((_, some err), h) => (toError err, h)
      | ((results, none), h) => (toJSON rt.marshalSearch results, h)

/-- The handler `jsonlogicSearchTool.Handler`. -/
def jsonlogicSearchTool.Handler (rt : Runtime) (o : Obsidian) (hist : List Call)
    (request : CallToolRequest) : HandlerResult × List Call :=
  let query := request.GetString "query" ""
  if query = "" then (toError "query is required", hist)
  else
    match o.ComplexSearch hist query "application/vnd.olrapi.jsonlogic+json" with
    | ((_, some err), h) => (toError err, h)
    | ((results, none), h) => (toJSON rt.marshalComplex results, h)

/-- The handler `dataviewSearchTool.Handler`. -/
def dataviewSearchTool.Handler (rt : Runtime) (o : Obsidian) (hist : List Call)
    (request : CallToolRequest) : HandlerResult × List Call :=
  let query := request.GetString "query" ""
  if query = "" then (toError "query is required", hist)
  else
    match o.ComplexSearch hist query "application/vnd.olrapi.dataview.dql+txt" with
    | ((_, some err), h) => (toError err, h)
    | ((results, none), h) => (toJSON rt.marshalComplex results, h)

/-- The handler `periodicNoteTool.Handler`. -/
def periodicNoteTool.Handler (rt : Runtime) (o : Obsidian) (hist : List Call)
    (request : CallToolRequest) : HandlerResult × List Call :=
  let period := request.GetString "period" "daily"
  if period = "" then (toError "period is required", hist)
  else if ¬ periods.contains period then (toError (invalidPeriod period), hist)
  else
    match o.GetPeriodicNote hist period with
    | ((_, some err), h) => (toError err, h)
    | ((note, none), h) => (marshalOrError rt.marshalFile note, h)

/-- The handler `periodicDateTool.Handler`. -/
def periodicDateTool.Handler (rt : Runtime) (o : Obsidian) (hist : List Call)
    (request : CallToolRequest) : HandlerResult × List Call :=
  let period := request.GetString "period" "daily"
  if period = "" then (toError "period is required", hist)
  else
    let date := request.GetString "date" rt.nowDate
    if ¬ periods.contains period then (toError (invalidPeriod period), hist)
    else
      match o.GetPeriodicNoteByDate hist period date with
      | ((_, some err), h) => (toError err, h)
      | ((note, none), h) => (marshalOrError rt.marshalFile note, h)

/-- The handler `periodicRecentTool.Handler`. -/
def periodicRecentTool.Handler (rt : Runtime) (o : Obsidian) (hist : List Call)
    (request : CallToolRequest) : HandlerResult × List Call :=
  let period := request.GetString "period" "daily"
  if period = "" then (toError "period is required", hist)
  else if ¬ periods.contains period then (toError (invalidPeriod period), hist)
  else
    let limit := request.GetInt "limit" 5
    if limit ≤ 0 then (toError "limit must be greater than 0", hist)
    else
      let content := request.GetBool "include_content" false
      match o.GetPeriodicNoteRecent hist period limit content with
      | ((_, some err), h) => (toError err, h)
      | ((note, none), h) => (marshalOrError rt.marshalFiles note, h)

/-! ## Specification-side definitions and sample inputs -/

/-- The handlers with one required string parameter, each with the name of that parameter. -/
def requiredStringHandlers :
    List (String × (Runtime → Obsidian → List Call → CallToolRequest → HandlerResult × List Call)) :=
  [("dirpath", listFilesInDir.Handler),
   ("filepath", getFileContents.Handler),
   ("filename", getFileByName.Handler),
   ("query", simpleSearchTool.Handler),
   ("query", jsonlogicSearchTool.Handler),
   ("query", dataviewSearchTool.Handler)]

/-- A server that fails every request with the message `down`. -/
def downClient : Client :=
  { files := fun _ _ => Except.error "down"
    file := fun _ _ => Except.error "down"
    notes := fun _ _ => Except.error "down"
    search := fun _ _ => Except.error "down"
    complex := fun _ _ => Except.error "down" }

/-- A client of `downClient` at host `https://vault`. -/
def downObsidian : Obsidian :=
  { conf := { ObsidianAPIKey := "key", ObsidianAPIHost := "https://vault" }
    client := downClient }

/-- A runtime whose routines return fixed texts; every marshaller succeeds. -/
def sampleRuntime : Runtime :=
  { Quote := fun s => "\"" ++ s ++ "\""
    QueryEscape := fun s => s
    nowDate := "2024-03-07"
    nowDateTime := "2024-03-07 12:00:00"
    marshalStrings := fun _ => Except.ok "[]"
    marshalFile := fun _ => Except.ok "file"
    marshalFiles := fun _ => Except.ok "[]"
    marshalSearch := fun _ => Except.ok "[]"
    marshalComplex := fun _ => Except.ok "[]" }

/-- What a handler makes of the outcome of its backend call: the error message as a tool
error, or the value through the handler's marshalling tail; the history is the backend's. -/
def afterBackend {α : Type} (tail : α → HandlerResult)
    (backend : (α × Option Error) × List Call) : HandlerResult × List Call :=
  match backend with
  | ((_, some err), h) => (toError err, h)
  | ((v, none), h) => (tail v, h)

/-- The request of `GetPeriodicNote` for a period. -/
def periodicCall (o : Obsidian) (period : String) : Call :=
  { method := "GET", path := o.conf.ObsidianAPIHost ++ "/periodic/" ++ period,
    body := none, contentType := "" }

/-- The request of `GetPeriodicNoteByDate` for a period and a date segment. -/
def periodicDateCall (o : Obsidian) (period segment : String) : Call :=
  { method := "GET", path := o.conf.ObsidianAPIHost ++ "/periodic/" ++ period ++ "/" ++ segment,
    body := none, contentType := "" }

/-- The request of `SimpleSearch` for a query and a context length. -/
def simpleSearchCall (rt : Runtime) (o : Obsidian) (query : String) (length : Int) : Call :=
  { method := "POST",
    path := o.conf.ObsidianAPIHost ++ "/search/simple/?query=" ++ rt.QueryEscape query
      ++ "&contextLength=" ++ toString length,
    body := none, contentType := "" }

/-- The request of `GetPeriodicNoteRecent` for a period, a limit and the content flag. -/
def recentCall (o : Obsidian) (period : String) (limit : Int) (content : Bool) : Call :=
  { method := "GET",
    path := o.conf.ObsidianAPIHost ++ "/periodic/" ++ period ++ "/recent?limit="
      ++ toString limit ++ "&includeContent=" ++ toString content,
    body := none, contentType := "" }

/-- Follows the spec's words: every space replaced by `%20`, every other character left
unchanged. -/
def encodeSpaces (cs : List Char) : List Char :=
  cs.flatMap (fun c => if c = ' ' then ['%', '2', '0'] else [c])

/-- Follows the spec's words: every `-` replaced by `/`. -/
def dashesToSlashes (cs : List Char) : List Char :=
  cs.map (fun c => if c = '-' then '/' else c)

/-- The request of `ListFilesInDir` and `GetFileContents` for an already encoded path. -/
def vaultCall (o : Obsidian) (encoded : String) : Call :=
  { method := "GET", path := o.conf.ObsidianAPIHost ++ "/vault/" ++ encoded,
    body := none, contentType := "" }

/-- The request of `ComplexSearch` for a query text and a query type. -/
def complexCall (o : Obsidian) (query queryType : String) : Call :=
  { method := "POST", path := o.conf.ObsidianAPIHost ++ "/search/", body := some query,
    contentType := queryType }

/-- The request of `GetFileByName` to the query endpoint for a name. -/
def searchCall (rt : Runtime) (o : Obsidian) (filename : String) : Call :=
  complexCall o ("TABLE WHERE file.name=" ++ rt.Quote filename)
    "application/vnd.olrapi.dataview.dql+txt"

/-- The request by which `GetFileByName` fetches one match. -/
def fetchCall (o : Obsidian) (m : ComplexResult) : Call :=
  vaultCall o (ReplaceAll (TrimPrefix m.Filename "/") " " "%20")

/-- Follows the spec's words: with `includeContent` false the content field is the empty
string and every other field is unchanged; with `includeContent` true the value is unchanged. -/
def clearContent (includeContent : Bool) (f : FileContents) : FileContents :=
  if includeContent then f
  else { Content := "", Frontmatter := f.Frontmatter, Path := f.Path, Stat := f.Stat,
         Tags := f.Tags }

/-- The history after the name query and the fetches of the first `i` matches. -/
def historyBeforeFetch (rt : Runtime) (o : Obsidian) (hist : List Call) (filename : String)
    (ms : List ComplexResult) (i : Nat) : List Call :=
  hist ++ searchCall rt o filename :: (ms.take i).map (fetchCall o)

/-- A server with two matches for every name query, `a.md` and `b c.md`; the fetch of the
second fails with `gone`, the fetch of anything else gives a body without a `path` key. -/
def flakyClient : Client :=
  { files := fun _ _ => Except.ok []
    file := fun _ c =>
      if c.path = "https://vault/vault/b%20c.md" then Except.error "gone"
      else Except.ok { FileContents.zero with Content := "text" }
    notes := fun _ _ => Except.ok []
    search := fun _ _ => Except.ok []
    complex := fun _ _ =>
      Except.ok [{ Filename := "a.md", Result := Any.null },
                 { Filename := "b c.md", Result := Any.null }] }

/-- A client of `flakyClient` at host `https://vault`. -/
def flakyObsidian : Obsidian :=
  { conf := { ObsidianAPIKey := "key", ObsidianAPIHost := "https://vault" }
    client := flakyClient }

/-- A server with one match `note.md` for every name query; every fetch gives the note with
content `hello`, size 5 and the path `note.md`. -/
def noteClient : Client :=
  { files := fun _ _ => Except.ok []
    file := fun _ _ =>
      Except.ok { Content := "hello", Frontmatter := [], Path := "note.md",
                  Stat := ⟨1, 2, 5⟩, Tags := ["t"] }
    notes := fun _ _ => Except.ok []
    search := fun _ _ => Except.ok []
    complex := fun _ _ => Except.ok [{ Filename := "note.md", Result := Any.null }] }

/-- A client of `noteClient` at host `https://vault`. -/
def noteObsidian : Obsidian :=
  { conf := { ObsidianAPIKey := "key", ObsidianAPIHost := "https://vault" }
    client := noteClient }

/-- A server with one match `note.md` for every name query whose file fetch answers with a
JSON object that has no `path` key (for instance the body of a not-found answer), so that the
decoded `FileContents` is the zero value. -/
def pathlessClient : Client :=
  { files := fun _ _ => Except.ok []
    file := fun _ _ => Except.ok FileContents.zero
    notes := fun _ _ => Except.ok []
    search := fun _ _ => Except.ok []
    complex := fun _ _ => Except.ok [{ Filename := "note.md", Result := Any.null }] }

/-- A client of `pathlessClient` at host `https://vault`. -/
def pathlessObsidian : Obsidian :=
  { conf := { ObsidianAPIKey := "key", ObsidianAPIHost := "https://vault" }
    client := pathlessClient }

/-! ## JSON values of the result types (`encoding/json` on the declared struct tags)

The text layer of `encoding/json` (rendering a JSON value and parsing it back) is not
modelled: a JSON document stands for its value, an `Any`. A Go `map[string]any` is the member
list of its object, and a value decoded into `any` is the JSON value itself. The texts that the
marshallers of `Runtime` return are the renderings of the values defined here. -/

/-- The case folding under which `encoding/json` matches an object key against an ASCII field
name: ASCII letters fold to upper case, and so do the long s and the Kelvin sign. -/
def foldChar (c : Char) : Char :=
  if 'a' ≤ c ∧ c ≤ 'z' then Char.ofNat (c.toNat - 32)
  else if c = Char.ofNat 0x17F then 'S'
  else if c = Char.ofNat 0x212A then 'K'
  else c

/-- A key folded character by character. -/
def foldName (s : String) : List Char :=
  s.data.map foldChar

/-- An object key selects the field named `field` when the two agree after folding (an exact
match is one such). -/
def keyMatches (field key : String) : Bool :=
  foldName key == foldName field

/-- A JSON value decoded into a Go `string` holding `cur`: `null` leaves it, a string replaces
it, anything else is a type error. -/
def decodeString (cur : String) : Any → Except Error String
  | Any.null => Except.ok cur
  | Any.string s => Except.ok s
  | _ => Except.error "json: cannot unmarshal value into Go value of type string"

/-- A JSON value decoded into a Go `int` (64 bits) holding `cur`. -/
def decodeInt (cur : Int) : Any → Except Error Int
  | Any.null => Except.ok cur
  | Any.number n =>
    if -(2 ^ 63) ≤ n ∧ n < 2 ^ 63 then Except.ok n
    else Except.error "json: cannot unmarshal number into Go value of type int"
  | _ => Except.error "json: cannot unmarshal value into Go value of type int"

/-- The elements of a JSON array decoded into fresh Go strings. -/
def decodeStringElems : List Any → Except Error (List String)
  | [] => Except.ok []
  | x :: xs =>
    match decodeString "" x with
    | Except.error e => Except.error e
    | Except.ok s =>
      match decodeStringElems xs with
      | Except.error e => Except.error e
      | Except.ok ss => Except.ok (s :: ss)

/-- A JSON value decoded into a Go `[]string`: `null` gives nil, an array its elements. -/
def decodeStrings : Any → Except Error (List String)
  | Any.null => Except.ok []
  | Any.array xs => decodeStringElems xs
  | _ => Except.error "json: cannot unmarshal value into Go value of type []string"

/-- One entry stored into a Go map: the value under an existing key is replaced, a new key is
added. -/
def mapInsert (k : String) (v : Any) : List (String × Any) → List (String × Any)
  | [] => [(k, v)]
  | (k1, v1) :: rest => if k1 = k then (k1, v) :: rest else (k1, v1) :: mapInsert k v rest

/-- A JSON value decoded into a Go `map[string]any` holding `cur`: `null` gives nil, an object
stores its members, in document order, into the map. -/
def decodeMap (cur : List (String × Any)) : Any → Except Error (List (String × Any))
  | Any.null => Except.ok []
  | Any.object kvs => Except.ok (kvs.foldl (fun m kv => mapInsert kv.1 kv.2 m) cur)
  | _ => Except.error "json: cannot unmarshal value into Go value of type map[string]interface"

/-- One member of a JSON object decoded into the `stat` struct (tags `ctime`, `mtime`,
`size`); a key that selects no field is skipped. -/
def Stat.decodeMember (s : Stat) (key : String) (v : Any) : Except Error Stat :=
  if keyMatches "ctime" key then
    match decodeInt s.CTime v with
    | Except.error e => Except.error e
    | Except.ok n => Except.ok { s with CTime := n }
  else if keyMatches "mtime" key then
    match decodeInt s.MTime v with
    | Except.error e => Except.error e
    | Except.ok n => Except.ok { s with MTime := n }
  else if keyMatches "size" key then
    match decodeInt s.Size v with
    | Except.error e => Except.error e
    | Except.ok n => Except.ok { s with Size := n }
  else Except.ok s

/-- The members of a JSON object decoded, in document order, into the `stat` struct. -/
def Stat.decodeMembers : Stat → List (String × Any) → Except Error Stat
  | s, [] => Except.ok s
  | s, kv :: rest =>
    match Stat.decodeMember s kv.1 kv.2 with
    | Except.error e => Except.error e
    | Except.ok s1 => Stat.decodeMembers s1 rest

/-- A JSON value decoded into the `stat` struct holding `cur`. -/
def Stat.decode (cur : Stat) : Any → Except Error Stat
  | Any.null => Except.ok cur
  | Any.object kvs => Stat.decodeMembers cur kvs
  | _ => Except.error "json: cannot unmarshal value into Go value of type struct"

/-- One member of a JSON object decoded into a `FileContents` (tags `content`, `frontmatter`,
`path`, `stat`, `tags`); a key that selects no field is skipped. -/
def FileContents.decodeMember (f : FileContents) (key : String) (v : Any) :
    Except Error FileContents :=
  if keyMatches "frontmatter" key then
    match decodeMap f.Frontmatter v with
    | Except.error e => Except.error e
    | Except.ok m => Except.ok { f with Frontmatter := m }
  else if keyMatches "tags" key then
    match decodeStrings v with
    | Except.error e => Except.error e
    | Except.ok ts => Except.ok { f with Tags := ts }
  else if keyMatches "content" key then
    match decodeString f.Content v with
    | Except.error e => Except.error e
    | Except.ok c => Except.ok { f with Content := c }
  else if keyMatches "path" key then
    match decodeString f.Path v with
    | Except.error e => Except.error e
    | Except.ok c => Except.ok { f with Path := c }
  else if keyMatches "stat" key then
    match Stat.decode f.Stat v with
    | Except.error e => Except.error e
    | Except.ok st => Except.ok { f with Stat := st }
  else Except.ok f

/-- The members of a JSON object decoded, in document order, into a `FileContents`. -/
def FileContents.decodeMembers : FileContents → List (String × Any) → Except Error FileContents
  | f, [] => Except.ok f
  | f, kv :: rest =>
    match FileContents.decodeMember f kv.1 kv.2 with
    | Except.error e => Except.error e
    | Except.ok f1 => FileContents.decodeMembers f1 rest

/-- A JSON value decoded into a fresh `FileContents` (`var result FileContents`, then
`Decode`). -/
def FileContents.fromJsonValue : Any → Except Error FileContents
  | Any.null => Except.ok FileContents.zero
  | Any.object kvs => FileContents.decodeMembers FileContents.zero kvs
  | _ => Except.error "json: cannot unmarshal value into Go value of type obsidian.FileContents"

/-- The JSON value `json.Marshal` gives the `stat` struct. -/
def Stat.jsonValue (s : Stat) : Any :=
  Any.object [("ctime", Any.number s.CTime), ("mtime", Any.number s.MTime),
    ("size", Any.number s.Size)]

/-- The JSON value `json.Marshal` gives a `FileContents`: the fields in declaration order under
their tags, those tagged `omitempty` left out when empty. -/
def FileContents.jsonValue (f : FileContents) : Any :=
  Any.object
    ([("content", Any.string f.Content)]
      ++ (if f.Frontmatter.isEmpty then [] else [("frontmatter", Any.object f.Frontmatter)])
      ++ (if f.Path = "" then [] else [("path", Any.string f.Path)])
      ++ [("stat", f.Stat.jsonValue)]
      ++ (if f.Tags.isEmpty then [] else [("tags", Any.array (f.Tags.map Any.string))]))

/-- The `FileContents` values a Go program can hold: the keys of the frontmatter map are
distinct and the three `stat` numbers fit an `int`. -/
def FileContents.WellFormed (f : FileContents) : Prop :=
  (f.Frontmatter.map Prod.fst).Nodup ∧
  (-(2 ^ 63) ≤ f.Stat.CTime ∧ f.Stat.CTime < 2 ^ 63) ∧
  (-(2 ^ 63) ≤ f.Stat.MTime ∧ f.Stat.MTime < 2 ^ 63) ∧
  (-(2 ^ 63) ≤ f.Stat.Size ∧ f.Stat.Size < 2 ^ 63)

/-- A `FileContents` with its frontmatter and tags emptied. -/
def FileContents.withoutOptional (f : FileContents) : FileContents :=
  { f with Frontmatter := [], Tags := [] }

/-- The members of an object whose key selects neither `frontmatter` nor `tags`. -/
def withoutOptionalKeys (kvs : List (String × Any)) : List (String × Any) :=
  kvs.filter (fun kv => !keyMatches "frontmatter" kv.1 && !keyMatches "tags" kv.1)

/-- A note with every field set. -/
def sampleNote : FileContents :=
  { Content := "hello", Frontmatter := [("title", Any.string "Note"), ("n", Any.number 3)],
    Path := "dir/note.md", Stat := ⟨1, 2, 5⟩, Tags := ["a", "b"] }

/-- The JSON value `json.Marshal` gives a `ComplexResult`: `Filename` under its tag
`filename`, and `Result`, which carries no tag, under its field name. -/
def ComplexResult.jsonValue (c : ComplexResult) : Any :=
  Any.object [("filename", Any.string c.Filename), ("Result", c.Result)]

/-- The JSON value `json.Marshal` gives the `[]ComplexResult` that the complex-search handlers
hand to `toJSON`. -/
def complexResultsJsonValue (results : List ComplexResult) : Any :=
  Any.array (results.map ComplexResult.jsonValue)

/-- The keys of a JSON object, in order; no keys for any other value. -/
def Any.keys : Any → List String
  | Any.object kvs => kvs.map Prod.fst
  | _ => []

/-- The member of a JSON object under a key, matched exactly. -/
def Any.member (key : String) : Any → Option Any
  | Any.object kvs => kvs.lookup key
  | _ => none

/-! ## The authenticating round-tripper (`internal/obsidian/http.go`) -/

/-- The bytes allowed in a header field name (`validHeaderFieldByte` of `net/textproto`). -/
def validHeaderFieldByte (c : Char) : Bool :=
  c.isAlphanum ||
    [ '!', '#', '$', '%', '&', Char.ofNat 39, '*', '+', '-', '.', '^', '_', Char.ofNat 96, '|',
      '~' ].contains c

/-- The canonical spelling of a valid header field name: upper case at the start and after
each `-`, lower case elsewhere. -/
def canonicalChars : Bool → List Char → List Char
  | _, [] => []
  | upper, c :: cs =>
    let c1 :=
      if upper && c.isLower then c.toUpper
      else if !upper && c.isUpper then c.toLower
      else c
    c1 :: canonicalChars (c1 == '-') cs

/-- Go `textproto.CanonicalMIMEHeaderKey`: a name with a byte that is not allowed is returned
as it is. -/
def CanonicalMIMEHeaderKey (s : String) : String :=
  if s.data.all validHeaderFieldByte then ⟨canonicalChars true s.data⟩ else s

/-- An `http.Header`: the values under each key, none for a key that is not set. -/
abbrev Header := String → List String

/-- The header with no key set. -/
def Header.empty : Header := fun _ => []

/-- Go `Header.Add`: the value is appended to the values under the canonical key. -/
def Header.Add (h : Header) (key value : String) : Header :=
  fun k => if k = CanonicalMIMEHeaderKey key then h k ++ [value] else h k

/-- Go `Header.Set`: the value replaces the values under the canonical key. -/
def Header.Set (h : Header) (key value : String) : Header :=
  fun k => if k = CanonicalMIMEHeaderKey key then [value] else h k

/-- An `http.Request` as far as the client touches it. -/
structure Request where
  Method : String
  URL : String
  Body : Option String
  Header : Header

/-- The struct `roundtripper`, over the result type of the underlying transport. -/
structure roundtripper (α : Type) where
  transport : Request → α
  conf : Config

/-- The method `roundtripper.RoundTrip`. -/
def roundtripper.RoundTrip {α : Type} (r : roundtripper α) (req : Request) : α :=
  let req := { req with
    Header := req.Header.Add "Authorization" ("Bearer " ++ r.conf.ObsidianAPIKey) }
  let req := { req with Header := req.Header.Add "Accept" "application/vnd.olrapi.note+json" }
  r.transport req

/-- The request that `Obsidian.call` builds before `client.Do`: `NewRequestWithContext`, then
`Content-Type` when a content type is given. -/
def Call.request (c : Call) : Request :=
  let req : Request :=
    { Method := c.method, URL := c.path, Body := c.body, Header := Header.empty }
  if c.contentType ≠ "" then
    { req with Header := req.Header.Set "Content-Type" c.contentType }
  else req

/-! ## Theorems -/

theorem GetString_absent_or_empty (request : CallToolRequest) (key : String)
    (h : request.Arguments.lookup key = none ∨
      request.Arguments.lookup key = some (Any.string "")) :
    request.GetString key "" = "" := by
  unfold CallToolRequest.GetString
  rcases h with h | h <;> simp [h]

/-- C1: each handler with a required string parameter (dirpath, filepath, filename, query)
answers a parameter bag in which that parameter is absent or the empty string with the tool
error `<parameter> is required`, a nil protocol error, and no backend request. -/
theorem C1_required_parameter_rejected (rt : Runtime) (o : Obsidian) (hist : List Call)
    (request : CallToolRequest) (name : String)
    (handler : Runtime → Obsidian → List Call → CallToolRequest → HandlerResult × List Call)
    (hmem : (name, handler) ∈ requiredStringHandlers)
    (h : request.Arguments.lookup name = none ∨
      request.Arguments.lookup name = some (Any.string "")) :
    handler rt o hist request =
      ((some { Text := name ++ " is required", IsError := true }, none), hist) := by
  have hg := GetString_absent_or_empty request name h
  simp only [requiredStringHandlers, List.mem_cons, Prod.mk.injEq, List.mem_singleton,
    List.not_mem_nil, or_false] at hmem
  rcases hmem with ⟨rfl, rfl⟩ | ⟨rfl, rfl⟩ | ⟨rfl, rfl⟩ | ⟨rfl, rfl⟩ | ⟨rfl, rfl⟩ | ⟨rfl, rfl⟩
  · simp [listFilesInDir.Handler, hg, toError, NewToolResultError]
  · simp [getFileContents.Handler, hg, toError, NewToolResultError]
  · simp [getFileByName.Handler, hg, toError, NewToolResultError]
  · simp [simpleSearchTool.Handler, hg, toError, NewToolResultError]
  · simp [jsonlogicSearchTool.Handler, hg, toError, NewToolResultError]
  · simp [dataviewSearchTool.Handler, hg, toError, NewToolResultError]

/-- C1 at the empty parameter bag and at a bag holding an empty `query`. -/
theorem C1_required_parameter_rejected_witness :
    listFilesInDir.Handler sampleRuntime downObsidian [] { Arguments := [] } =
      ((some { Text := "dirpath is required", IsError := true }, none), []) ∧
    simpleSearchTool.Handler sampleRuntime downObsidian []
        { Arguments := [("query", Any.string "")] } =
      ((some { Text := "query is required", IsError := true }, none), []) :=
  ⟨C1_required_parameter_rejected sampleRuntime downObsidian [] { Arguments := [] } "dirpath"
      listFilesInDir.Handler (by simp [requiredStringHandlers]) (Or.inl rfl),
   C1_required_parameter_rejected sampleRuntime downObsidian []
      { Arguments := [("query", Any.string "")] } "query"
      simpleSearchTool.Handler (by simp [requiredStringHandlers]) (Or.inr rfl)⟩

theorem GetPeriodicNote_history (o : Obsidian) (hist : List Call) (period : String) :
    (o.GetPeriodicNote hist period).2 = hist ++ [periodicCall o period] := by
  unfold Obsidian.GetPeriodicNote Obsidian.call periodicCall
  dsimp only
  cases o.client.file hist _ <;> rfl

theorem GetPeriodicNoteByDate_history (o : Obsidian) (hist : List Call) (period date : String) :
    (o.GetPeriodicNoteByDate hist period date).2 =
      hist ++ [periodicDateCall o period (ReplaceAll date "-" "/")] := by
  unfold Obsidian.GetPeriodicNoteByDate Obsidian.call periodicDateCall
  dsimp only
  cases o.client.file hist _ <;> rfl

theorem afterBackend_history {α : Type} (tail : α → HandlerResult)
    (backend : (α × Option Error) × List Call) : (afterBackend tail backend).2 = backend.2 := by
  rcases backend with ⟨⟨v, _ | e⟩, h⟩ <;> rfl

theorem periodicNote_valid (rt : Runtime) (o : Obsidian) (hist : List Call)
    (request : CallToolRequest) (hp : request.GetString "period" "daily" ∈ periods) :
    periodicNoteTool.Handler rt o hist request =
      afterBackend (marshalOrError rt.marshalFile)
        (o.GetPeriodicNote hist (request.GetString "period" "daily")) := by
  have hne : request.GetString "period" "daily" ≠ "" := by
    intro h; rw [h] at hp; revert hp; decide
  have hc : periods.contains (request.GetString "period" "daily") = true := by
    simpa using hp
  unfold periodicNoteTool.Handler afterBackend
  simp only [hne, hc, if_false, not_true_eq_false]
  generalize o.GetPeriodicNote hist _ = b
  rcases b with ⟨⟨v, _ | e⟩, h⟩ <;> rfl

theorem periodicDate_valid (rt : Runtime) (o : Obsidian) (hist : List Call)
    (request : CallToolRequest) (hp : request.GetString "period" "daily" ∈ periods) :
    periodicDateTool.Handler rt o hist request =
      afterBackend (marshalOrError rt.marshalFile)
        (o.GetPeriodicNoteByDate hist (request.GetString "period" "daily")
          (request.GetString "date" rt.nowDate)) := by
  have hne : request.GetString "period" "daily" ≠ "" := by
    intro h; rw [h] at hp; revert hp; decide
  have hc : periods.contains (request.GetString "period" "daily") = true := by
    simpa using hp
  unfold periodicDateTool.Handler afterBackend
  simp only [hne, hc, if_false, not_true_eq_false]
  generalize o.GetPeriodicNoteByDate hist _ _ = b
  rcases b with ⟨⟨v, _ | e⟩, h⟩ <;> rfl

/-- C2: evaluation of the two periodic-note handlers where a required parameter is missing.
With no `period` the handlers do not answer `period is required`: they request the `daily`
note from the backend. With no `date`, or an empty one, the date handler requests the backend
with the current date, respectively with an empty date segment. -/
theorem C2_missing_required_reaches_backend (rt : Runtime) (o : Obsidian) (hist : List Call) :
    (periodicNoteTool.Handler rt o hist { Arguments := [] }).2 =
      hist ++ [periodicCall o "daily"] ∧
    (periodicDateTool.Handler rt o hist { Arguments := [] }).2 =
      hist ++ [periodicDateCall o "daily" (ReplaceAll rt.nowDate "-" "/")] ∧
    (periodicDateTool.Handler rt o hist { Arguments := [("period", Any.string "weekly")] }).2 =
      hist ++ [periodicDateCall o "weekly" (ReplaceAll rt.nowDate "-" "/")] ∧
    (periodicDateTool.Handler rt o hist
        { Arguments := [("period", Any.string "weekly"), ("date", Any.string "")] }).2 =
      hist ++ [periodicDateCall o "weekly" ""] := by
  refine ⟨?_, ?_, ?_, ?_⟩
  · rw [periodicNote_valid rt o hist _ (by decide), afterBackend_history,
      GetPeriodicNote_history]
    rfl
  · rw [periodicDate_valid rt o hist _ (by decide), afterBackend_history,
      GetPeriodicNoteByDate_history]
    rfl
  · rw [periodicDate_valid rt o hist _ (by decide), afterBackend_history,
      GetPeriodicNoteByDate_history]
    rfl
  · rw [periodicDate_valid rt o hist _ (by decide), afterBackend_history,
      GetPeriodicNoteByDate_history]
    rfl

theorem GetString_of_string (request : CallToolRequest) (key dflt v : String)
    (h : request.Arguments.lookup key = some (Any.string v)) :
    request.GetString key dflt = v := by
  unfold CallToolRequest.GetString
  simp [h]

theorem periodicNote_invalid (rt : Runtime) (o : Obsidian) (hist : List Call)
    (request : CallToolRequest) (hp : request.GetString "period" "daily" ∉ periods) :
    periodicNoteTool.Handler rt o hist request =
      (toError (if request.GetString "period" "daily" = "" then "period is required"
        else invalidPeriod (request.GetString "period" "daily")), hist) := by
  have hc : periods.contains (request.GetString "period" "daily") = false := by
    simpa using hp
  unfold periodicNoteTool.Handler
  by_cases he : request.GetString "period" "daily" = ""
  · simp only [he, if_true]
  · simp only [he, hc, if_false, Bool.false_eq_true, not_false_eq_true, if_true]

theorem periodicDate_invalid (rt : Runtime) (o : Obsidian) (hist : List Call)
    (request : CallToolRequest) (hp : request.GetString "period" "daily" ∉ periods) :
    periodicDateTool.Handler rt o hist request =
      (toError (if request.GetString "period" "daily" = "" then "period is required"
        else invalidPeriod (request.GetString "period" "daily")), hist) := by
  have hc : periods.contains (request.GetString "period" "daily") = false := by
    simpa using hp
  unfold periodicDateTool.Handler
  by_cases he : request.GetString "period" "daily" = ""
  · simp only [he, if_true]
  · simp only [he, hc, if_false, Bool.false_eq_true, not_false_eq_true, if_true]

/-- C3: for a parameter bag whose `period` is the string `p`. When `p` is none of daily,
weekly, monthly, quarterly, yearly, both periodic-note handlers answer with a tool error
(`period is required` for the empty string, `invalid period: ...` otherwise), a nil protocol
error and no backend request. When `p` is one of the five, each handler is its backend call
made with `p` itself (`GetPeriodicNote p`, `GetPeriodicNoteByDate p date`) followed by the
marshalling of the outcome, and exactly one request is made, whose URL carries `p`. -/
theorem C3_period_is_validated (rt : Runtime) (o : Obsidian) (hist : List Call)
    (request : CallToolRequest) (p : String)
    (hp : request.Arguments.lookup "period" = some (Any.string p)) :
    (p ∉ periods →
      periodicNoteTool.Handler rt o hist request =
        ((some { Text := if p = "" then "period is required" else invalidPeriod p,
                 IsError := true }, none), hist) ∧
      periodicDateTool.Handler rt o hist request =
        ((some { Text := if p = "" then "period is required" else invalidPeriod p,
                 IsError := true }, none), hist)) ∧
    (p ∈ periods →
      periodicNoteTool.Handler rt o hist request =
        afterBackend (marshalOrError rt.marshalFile) (o.GetPeriodicNote hist p) ∧
      (periodicNoteTool.Handler rt o hist request).2 = hist ++ [periodicCall o p] ∧
      periodicDateTool.Handler rt o hist request =
        afterBackend (marshalOrError rt.marshalFile)
          (o.GetPeriodicNoteByDate hist p (request.GetString "date" rt.nowDate)) ∧
      (periodicDateTool.Handler rt o hist request).2 =
        hist ++ [periodicDateCall o p
          (ReplaceAll (request.GetString "date" rt.nowDate) "-" "/")]) := by
  have hg := GetString_of_string request "period" "daily" p hp
  constructor
  · intro hn
    rw [← hg] at hn
    rw [periodicNote_invalid rt o hist request hn, periodicDate_invalid rt o hist request hn, hg]
    exact ⟨rfl, rfl⟩
  · intro hv
    rw [← hg] at hv
    have h1 := periodicNote_valid rt o hist request hv
    have h2 := periodicDate_valid rt o hist request hv
    rw [hg] at h1 h2
    refine ⟨h1, ?_, h2, ?_⟩
    · rw [h1, afterBackend_history, GetPeriodicNote_history]
    · rw [h2, afterBackend_history, GetPeriodicNoteByDate_history]

/-- C3 at `period = "hourly"` (rejected) and `period = "monthly"` (requested). -/
theorem C3_period_is_validated_witness :
    periodicNoteTool.Handler sampleRuntime downObsidian []
        { Arguments := [("period", Any.string "hourly")] } =
      ((some { Text := "invalid period: hourly, must be one of daily, weekly, monthly, quarterly, yearly",
               IsError := true }, none), []) ∧
    (periodicNoteTool.Handler sampleRuntime downObsidian []
        { Arguments := [("period", Any.string "monthly")] }).2 =
      [{ method := "GET", path := "https://vault/periodic/monthly", body := none,
         contentType := "" }] :=
  ⟨((C3_period_is_validated sampleRuntime downObsidian []
      { Arguments := [("period", Any.string "hourly")] } "hourly" rfl).1 (by decide)).1,
   ((C3_period_is_validated sampleRuntime downObsidian []
      { Arguments := [("period", Any.string "monthly")] } "monthly" rfl).2 (by decide)).2.1⟩

theorem GetInt_of_number (request : CallToolRequest) (key : String) (dflt n : Int)
    (h : request.Arguments.lookup key = some (Any.number n)) :
    request.GetInt key dflt = jsonNumberToInt n := by
  unfold CallToolRequest.GetInt
  simp [h]

theorem float64ToInt_nonpos (v : Int) (h : v ≤ 0) : float64ToInt v ≤ 0 := by
  unfold float64ToInt
  split_ifs
  · exact h
  · decide

theorem roundToFloat64_nonpos (n : Int) (h : n ≤ 0) : roundToFloat64 n ≤ 0 := by
  unfold roundToFloat64
  split_ifs with hneg
  · exact neg_nonpos.mpr (Int.ofNat_nonneg _)
  · have h0 : n = 0 := le_antisymm h (not_lt.mp hneg)
    subst h0
    decide

theorem jsonNumberToInt_nonpos (n : Int) (h : n ≤ 0) : jsonNumberToInt n ≤ 0 :=
  float64ToInt_nonpos _ (roundToFloat64_nonpos n h)

theorem jsonNumberToInt_exact (n : Int) (h0 : 0 ≤ n) (h1 : n ≤ 2 ^ 53) :
    jsonNumberToInt n = n := by
  have hnat : n.natAbs ≤ 2 ^ 53 := by
    have : (n.natAbs : Int) ≤ ((2 ^ 53 : Nat) : Int) := by
      rw [Int.natAbs_of_nonneg h0]
      exact_mod_cast h1
    exact_mod_cast this
  have hround : roundToFloat64 n = n := by
    unfold roundToFloat64 float64OfNat
    rw [if_neg (not_lt.mpr h0), if_pos hnat]
    exact Int.natAbs_of_nonneg h0
  unfold jsonNumberToInt float64ToInt
  rw [hround, if_pos]
  constructor
  · linarith
  · have : (2 : Int) ^ 53 < 2 ^ 63 := by decide
    linarith

theorem SimpleSearch_history (rt : Runtime) (o : Obsidian) (hist : List Call) (query : String)
    (length : Int) :
    (Obsidian.SimpleSearch rt o hist query length).2 =
      hist ++ [simpleSearchCall rt o query length] := by
  unfold Obsidian.SimpleSearch Obsidian.call simpleSearchCall
  dsimp only
  cases o.client.search hist _ <;> rfl

theorem GetPeriodicNoteRecent_history (o : Obsidian) (hist : List Call) (period : String)
    (limit : Int) (content : Bool) :
    (o.GetPeriodicNoteRecent hist period limit content).2 =
      hist ++ [recentCall o period limit content] := by
  unfold Obsidian.GetPeriodicNoteRecent Obsidian.call recentCall
  dsimp only
  cases o.client.notes hist _ <;> rfl

theorem simpleSearch_valid (rt : Runtime) (o : Obsidian) (hist : List Call)
    (request : CallToolRequest) (hq : request.GetString "query" "" ≠ "")
    (hn : 0 < request.GetInt "content_length" 100) :
    simpleSearchTool.Handler rt o hist request =
      afterBackend (toJSON rt.marshalSearch)
        (Obsidian.SimpleSearch rt o hist (request.GetString "query" "")
          (request.GetInt "content_length" 100)) := by
  unfold simpleSearchTool.Handler afterBackend
  simp only [hq, not_le.mpr hn, if_false]
  generalize Obsidian.SimpleSearch rt o hist _ _ = b
  rcases b with ⟨⟨v, _ | e⟩, h⟩ <;> rfl

theorem periodicRecent_valid (rt : Runtime) (o : Obsidian) (hist : List Call)
    (request : CallToolRequest) (hp : request.GetString "period" "daily" ∈ periods)
    (hn : 0 < request.GetInt "limit" 5) :
    periodicRecentTool.Handler rt o hist request =
      afterBackend (marshalOrError rt.marshalFiles)
        (o.GetPeriodicNoteRecent hist (request.GetString "period" "daily")
          (request.GetInt "limit" 5) (request.GetBool "include_content" false)) := by
  have hne : request.GetString "period" "daily" ≠ "" := by
    intro h; rw [h] at hp; revert hp; decide
  have hc : periods.contains (request.GetString "period" "daily") = true := by
    simpa using hp
  unfold periodicRecentTool.Handler afterBackend
  simp only [hne, hc, not_le.mpr hn, if_false, not_true_eq_false]
  generalize o.GetPeriodicNoteRecent hist _ _ _ = b
  rcases b with ⟨⟨v, _ | e⟩, h⟩ <;> rfl

theorem simpleSearch_rejected (rt : Runtime) (o : Obsidian) (hist : List Call)
    (request : CallToolRequest) (hq : request.GetString "query" "" ≠ "")
    (hn : request.GetInt "content_length" 100 ≤ 0) :
    simpleSearchTool.Handler rt o hist request =
      ((some { Text := "content_length must be greater than 0", IsError := true }, none),
        hist) := by
  unfold simpleSearchTool.Handler
  simp only [hq, hn, if_false, if_true]
  rfl

theorem periodicRecent_rejected (rt : Runtime) (o : Obsidian) (hist : List Call)
    (request : CallToolRequest) (hp : request.GetString "period" "daily" ∈ periods)
    (hn : request.GetInt "limit" 5 ≤ 0) :
    periodicRecentTool.Handler rt o hist request =
      ((some { Text := "limit must be greater than 0", IsError := true }, none), hist) := by
  have hne : request.GetString "period" "daily" ≠ "" := by
    intro h; rw [h] at hp; revert hp; decide
  have hc : periods.contains (request.GetString "period" "daily") = true := by
    simpa using hp
  unfold periodicRecentTool.Handler
  simp only [hne, hc, hn, if_false, if_true, not_true_eq_false]
  rfl

/-- C4, the claim fails: `content_length = 2^53 + 1` is positive and is not passed unchanged,
the request carries `contextLength=9007199254740992`, which is `2^53`; the same happens to
`limit = 2^53 + 1` in the recent-periodic-note handler. -/
theorem C4_large_number_is_rounded :
    (0 : Int) < 9007199254740993 ∧
    (simpleSearchTool.Handler sampleRuntime downObsidian []
        { Arguments := [("query", Any.string "x"),
            ("content_length", Any.number 9007199254740993)] }).2 =
      [{ method := "POST",
         path := "https://vault/search/simple/?query=x&contextLength=9007199254740992",
         body := none, contentType := "" }] ∧
    (periodicRecentTool.Handler sampleRuntime downObsidian []
        { Arguments := [("period", Any.string "daily"),
            ("limit", Any.number 9007199254740993)] }).2 =
      [{ method := "GET",
         path := "https://vault/periodic/daily/recent?limit=9007199254740992&includeContent=false",
         body := none, contentType := "" }] := by
  have hconv : jsonNumberToInt 9007199254740993 = 9007199254740992 := by decide
  refine ⟨by decide, ?_, ?_⟩
  · have hq := GetString_of_string
      { Arguments := [("query", Any.string "x"),
          ("content_length", Any.number 9007199254740993)] } "query" "" "x" rfl
    have hn := GetInt_of_number
      { Arguments := [("query", Any.string "x"),
          ("content_length", Any.number 9007199254740993)] } "content_length" 100
      9007199254740993 rfl
    rw [hconv] at hn
    rw [simpleSearch_valid sampleRuntime downObsidian [] _ (by rw [hq]; decide)
      (by rw [hn]; decide), afterBackend_history, SimpleSearch_history, hq, hn]
    rfl
  · have hp := GetString_of_string
      { Arguments := [("period", Any.string "daily"),
          ("limit", Any.number 9007199254740993)] } "period" "daily" "daily" rfl
    have hn := GetInt_of_number
      { Arguments := [("period", Any.string "daily"),
          ("limit", Any.number 9007199254740993)] } "limit" 5 9007199254740993 rfl
    rw [hconv] at hn
    rw [periodicRecent_valid sampleRuntime downObsidian [] _ (by rw [hp]; decide)
      (by rw [hn]; decide), afterBackend_history, GetPeriodicNoteRecent_history, hp, hn]
    rfl

/-- C4, amended: a JSON number `n` reaches the handlers as `int(float64(n))`. With a non-empty
`query` and `content_length = n`, the simple-search handler answers `n <= 0` with the tool
error `content_length must be greater than 0` and no backend request; for `0 < n <= 2^53` it
is `SimpleSearch query n` followed by marshalling, its one request carrying `contextLength=n`;
for every `n` it works on the converted value, rejecting it when that is not positive and
passing it to `SimpleSearch` otherwise. The same holds for the recent-periodic-note handler
with a supported `period` and `limit = n`, with the tool error `limit must be greater than 0`
and `GetPeriodicNoteRecent period n content`. -/
theorem C4_numeric_parameters_converted (rt : Runtime) (o : Obsidian) (hist : List Call)
    (request : CallToolRequest) (n : Int) :
    (∀ q : String, request.Arguments.lookup "query" = some (Any.string q) → q ≠ "" →
      request.Arguments.lookup "content_length" = some (Any.number n) →
      (n ≤ 0 → simpleSearchTool.Handler rt o hist request =
        ((some { Text := "content_length must be greater than 0", IsError := true }, none),
          hist)) ∧
      (0 < n → n ≤ 2 ^ 53 →
        simpleSearchTool.Handler rt o hist request =
          afterBackend (toJSON rt.marshalSearch) (Obsidian.SimpleSearch rt o hist q n) ∧
        (simpleSearchTool.Handler rt o hist request).2 =
          hist ++ [simpleSearchCall rt o q n]) ∧
      (jsonNumberToInt n ≤ 0 → simpleSearchTool.Handler rt o hist request =
        ((some { Text := "content_length must be greater than 0", IsError := true }, none),
          hist)) ∧
      (0 < jsonNumberToInt n →
        simpleSearchTool.Handler rt o hist request =
          afterBackend (toJSON rt.marshalSearch)
            (Obsidian.SimpleSearch rt o hist q (jsonNumberToInt n)) ∧
        (simpleSearchTool.Handler rt o hist request).2 =
          hist ++ [simpleSearchCall rt o q (jsonNumberToInt n)])) ∧
    (∀ p : String, request.Arguments.lookup "period" = some (Any.string p) → p ∈ periods →
      request.Arguments.lookup "limit" = some (Any.number n) →
      (n ≤ 0 → periodicRecentTool.Handler rt o hist request =
        ((some { Text := "limit must be greater than 0", IsError := true }, none), hist)) ∧
      (0 < n → n ≤ 2 ^ 53 →
        periodicRecentTool.Handler rt o hist request =
          afterBackend (marshalOrError rt.marshalFiles)
            (o.GetPeriodicNoteRecent hist p n (request.GetBool "include_content" false)) ∧
        (periodicRecentTool.Handler rt o hist request).2 =
          hist ++ [recentCall o p n (request.GetBool "include_content" false)]) ∧
      (jsonNumberToInt n ≤ 0 → periodicRecentTool.Handler rt o hist request =
        ((some { Text := "limit must be greater than 0", IsError := true }, none), hist)) ∧
      (0 < jsonNumberToInt n →
        periodicRecentTool.Handler rt o hist request =
          afterBackend (marshalOrError rt.marshalFiles)
            (o.GetPeriodicNoteRecent hist p (jsonNumberToInt n)
              (request.GetBool "include_content" false)) ∧
        (periodicRecentTool.Handler rt o hist request).2 =
          hist ++ [recentCall o p (jsonNumberToInt n)
            (request.GetBool "include_content" false)])) := by
  constructor
  · intro q hq hne hl
    have hgq := GetString_of_string request "query" "" q hq
    have hgn := GetInt_of_number request "content_length" 100 n hl
    have hrej : jsonNumberToInt n ≤ 0 → simpleSearchTool.Handler rt o hist request =
        ((some { Text := "content_length must be greater than 0", IsError := true }, none),
          hist) := fun h =>
      simpleSearch_rejected rt o hist request (by rw [hgq]; exact hne) (by rw [hgn]; exact h)
    have hacc : 0 < jsonNumberToInt n →
        simpleSearchTool.Handler rt o hist request =
          afterBackend (toJSON rt.marshalSearch)
            (Obsidian.SimpleSearch rt o hist q (jsonNumberToInt n)) ∧
        (simpleSearchTool.Handler rt o hist request).2 =
          hist ++ [simpleSearchCall rt o q (jsonNumberToInt n)] := by
      intro h
      have h1 := simpleSearch_valid rt o hist request (by rw [hgq]; exact hne)
        (by rw [hgn]; exact h)
      rw [hgq, hgn] at h1
      refine ⟨h1, ?_⟩
      rw [h1, afterBackend_history, SimpleSearch_history]
    refine ⟨fun hn => hrej (jsonNumberToInt_nonpos n hn), ?_, hrej, hacc⟩
    intro hpos hle
    have hex := jsonNumberToInt_exact n (le_of_lt hpos) hle
    have := hacc (by rw [hex]; exact hpos)
    rw [hex] at this
    exact this
  · intro p hp hmem hl
    have hgp := GetString_of_string request "period" "daily" p hp
    have hgn := GetInt_of_number request "limit" 5 n hl
    have hrej : jsonNumberToInt n ≤ 0 → periodicRecentTool.Handler rt o hist request =
        ((some { Text := "limit must be greater than 0", IsError := true }, none), hist) :=
      fun h =>
        periodicRecent_rejected rt o hist request (by rw [hgp]; exact hmem)
          (by rw [hgn]; exact h)
    have hacc : 0 < jsonNumberToInt n →
        periodicRecentTool.Handler rt o hist request =
          afterBackend (marshalOrError rt.marshalFiles)
            (o.GetPeriodicNoteRecent hist p (jsonNumberToInt n)
              (request.GetBool "include_content" false)) ∧
        (periodicRecentTool.Handler rt o hist request).2 =
          hist ++ [recentCall o p (jsonNumberToInt n)
            (request.GetBool "include_content" false)] := by
      intro h
      have h1 := periodicRecent_valid rt o hist request (by rw [hgp]; exact hmem)
        (by rw [hgn]; exact h)
      rw [hgp, hgn] at h1
      refine ⟨h1, ?_⟩
      rw [h1, afterBackend_history, GetPeriodicNoteRecent_history]
    refine ⟨fun hn => hrej (jsonNumberToInt_nonpos n hn), ?_, hrej, hacc⟩
    intro hpos hle
    have hex := jsonNumberToInt_exact n (le_of_lt hpos) hle
    have := hacc (by rw [hex]; exact hpos)
    rw [hex] at this
    exact this

/-- C4 amended, at `content_length = 0` (rejected), at `limit = 3` (requested with `limit=3`)
and at `content_length = 2^63 - 1`, whose `float64` is `2^63` and does not fit an `int`
(rejected). -/
theorem C4_numeric_parameters_converted_witness :
    simpleSearchTool.Handler sampleRuntime downObsidian []
        { Arguments := [("query", Any.string "x"), ("content_length", Any.number 0)] } =
      ((some { Text := "content_length must be greater than 0", IsError := true }, none), []) ∧
    (periodicRecentTool.Handler sampleRuntime downObsidian []
        { Arguments := [("period", Any.string "daily"), ("limit", Any.number 3)] }).2 =
      [recentCall downObsidian "daily" 3 false] ∧
    simpleSearchTool.Handler sampleRuntime downObsidian []
        { Arguments := [("query", Any.string "x"),
            ("content_length", Any.number 9223372036854775807)] } =
      ((some { Text := "content_length must be greater than 0", IsError := true }, none), []) :=
  ⟨((C4_numeric_parameters_converted sampleRuntime downObsidian []
      { Arguments := [("query", Any.string "x"), ("content_length", Any.number 0)] } 0).1
      "x" rfl (by decide) rfl).1 (le_refl 0),
   (((C4_numeric_parameters_converted sampleRuntime downObsidian []
      { Arguments := [("period", Any.string "daily"), ("limit", Any.number 3)] } 3).2
      "daily" rfl (by decide) rfl).2.1 (by decide) (by decide)).2,
   ((C4_numeric_parameters_converted sampleRuntime downObsidian []
      { Arguments := [("query", Any.string "x"),
          ("content_length", Any.number 9223372036854775807)] } 9223372036854775807).1
      "x" rfl (by decide) rfl).2.2.1 (by decide)⟩

theorem afterBackend_error {α : Type} (tail : α → HandlerResult)
    (backend : (α × Option Error) × List Call) (e : Error) (h : backend.1.2 = some e) :
    afterBackend tail backend = ((some { Text := e, IsError := true }, none), backend.2) := by
  rcases backend with ⟨⟨v, _ | e1⟩, h1⟩
  · simp at h
  · simp only [Option.some.injEq] at h
    subst h
    rfl

theorem afterBackend_marshalOrError_protocol {α : Type} (marshal : α → Except Error String)
    (backend : (α × Option Error) × List Call) :
    (afterBackend (marshalOrError marshal) backend).1.2 = none := by
  rcases backend with ⟨⟨v, _ | e⟩, h⟩
  · show (marshalOrError marshal v).2 = none
    unfold marshalOrError
    cases marshal v <;> rfl
  · rfl

theorem afterBackend_toJSON_protocol {α : Type} (marshal : α → Except Error String)
    (hm : ∀ v, ∃ out, marshal v = Except.ok out)
    (backend : (α × Option Error) × List Call) :
    (afterBackend (toJSON marshal) backend).1.2 = none := by
  rcases backend with ⟨⟨v, _ | e⟩, h⟩
  · show (toJSON marshal v).2 = none
    obtain ⟨out, hout⟩ := hm v
    unfold toJSON
    rw [hout]
  · rfl

theorem listFilesInVault_eq (rt : Runtime) (o : Obsidian) (hist : List Call)
    (request : CallToolRequest) :
    listFilesInVault.Handler rt o hist request =
      afterBackend (toJSON rt.marshalStrings) (o.ListFilesInVault hist) := by
  unfold listFilesInVault.Handler afterBackend
  generalize o.ListFilesInVault hist = b
  rcases b with ⟨⟨v, _ | e⟩, h⟩ <;> rfl

theorem listFilesInDir_eq (rt : Runtime) (o : Obsidian) (hist : List Call)
    (request : CallToolRequest) :
    listFilesInDir.Handler rt o hist request =
      if request.GetString "dirpath" "" = "" then (toError "dirpath is required", hist)
      else afterBackend (toJSON rt.marshalStrings)
        (o.ListFilesInDir hist (request.GetString "dirpath" "")) := by
  unfold listFilesInDir.Handler afterBackend
  dsimp only
  split_ifs
  · rfl
  · generalize o.ListFilesInDir hist _ = b
    rcases b with ⟨⟨v, _ | e⟩, h⟩ <;> rfl

theorem getFileContents_eq (rt : Runtime) (o : Obsidian) (hist : List Call)
    (request : CallToolRequest) :
    getFileContents.Handler rt o hist request =
      if request.GetString "filepath" "" = "" then (toError "filepath is required", hist)
      else afterBackend (marshalOrError rt.marshalFile)
        (o.GetFileContents hist (request.GetString "filepath" "")) := by
  unfold getFileContents.Handler afterBackend
  dsimp only
  split_ifs
  · rfl
  · generalize o.GetFileContents hist _ = b
    rcases b with ⟨⟨v, _ | e⟩, h⟩ <;> rfl

theorem getFileByName_eq (rt : Runtime) (o : Obsidian) (hist : List Call)
    (request : CallToolRequest) :
    getFileByName.Handler rt o hist request =
      if request.GetString "filename" "" = "" then (toError "filename is required", hist)
      else afterBackend (marshalOrError rt.marshalFiles)
        (Obsidian.GetFileByName rt o hist
          (getFileByName.bareName (request.GetString "filename" ""))
          (request.GetBool "include_content" false)) := by
  unfold getFileByName.Handler afterBackend
  dsimp only
  split_ifs
  · rfl
  · generalize Obsidian.GetFileByName rt o hist _ _ = b
    rcases b with ⟨⟨v, _ | e⟩, h⟩ <;> rfl

theorem simpleSearch_eq (rt : Runtime) (o : Obsidian) (hist : List Call)
    (request : CallToolRequest) :
    simpleSearchTool.Handler rt o hist request =
      if request.GetString "query" "" = "" then (toError "query is required", hist)
      else if request.GetInt "content_length" 100 ≤ 0 then
        (toError "content_length must be greater than 0", hist)
      else afterBackend (toJSON rt.marshalSearch)
        (Obsidian.SimpleSearch rt o hist (request.GetString "query" "")
          (request.GetInt "content_length" 100)) := by
  unfold simpleSearchTool.Handler afterBackend
  dsimp only
  split_ifs
  · rfl
  · rfl
  · generalize Obsidian.SimpleSearch rt o hist _ _ = b
    rcases b with ⟨⟨v, _ | e⟩, h⟩ <;> rfl

theorem jsonlogicSearch_eq (rt : Runtime) (o : Obsidian) (hist : List Call)
    (request : CallToolRequest) :
    jsonlogicSearchTool.Handler rt o hist request =
      if request.GetString "query" "" = "" then (toError "query is required", hist)
      else afterBackend (toJSON rt.marshalComplex)
        (o.ComplexSearch hist (request.GetString "query" "")
          "application/vnd.olrapi.jsonlogic+json") := by
  unfold jsonlogicSearchTool.Handler afterBackend
  dsimp only
  split_ifs
  · rfl
  · generalize o.ComplexSearch hist _ _ = b
    rcases b with ⟨⟨v, _ | e⟩, h⟩ <;> rfl

theorem dataviewSearch_eq (rt : Runtime) (o : Obsidian) (hist : List Call)
    (request : CallToolRequest) :
    dataviewSearchTool.Handler rt o hist request =
      if request.GetString "query" "" = "" then (toError "query is required", hist)
      else afterBackend (toJSON rt.marshalComplex)
        (o.ComplexSearch hist (request.GetString "query" "")
          "application/vnd.olrapi.dataview.dql+txt") := by
  unfold dataviewSearchTool.Handler afterBackend
  dsimp only
  split_ifs
  · rfl
  · generalize o.ComplexSearch hist _ _ = b
    rcases b with ⟨⟨v, _ | e⟩, h⟩ <;> rfl

theorem periodicRecent_eq (rt : Runtime) (o : Obsidian) (hist : List Call)
    (request : CallToolRequest) :
    periodicRecentTool.Handler rt o hist request =
      if request.GetString "period" "daily" ∈ periods ∧ 0 < request.GetInt "limit" 5 then
        afterBackend (marshalOrError rt.marshalFiles)
          (o.GetPeriodicNoteRecent hist (request.GetString "period" "daily")
            (request.GetInt "limit" 5) (request.GetBool "include_content" false))
      else (toError
        (if request.GetString "period" "daily" = "" then "period is required"
         else if request.GetString "period" "daily" ∉ periods then
           invalidPeriod (request.GetString "period" "daily")
         else "limit must be greater than 0"), hist) := by
  by_cases hp : request.GetString "period" "daily" ∈ periods
  · by_cases hn : 0 < request.GetInt "limit" 5
    · rw [if_pos ⟨hp, hn⟩]
      exact periodicRecent_valid rt o hist request hp hn
    · have hne : request.GetString "period" "daily" ≠ "" := by
        intro h; rw [h] at hp; revert hp; decide
      have hc : periods.contains (request.GetString "period" "daily") = true := by
        simpa using hp
      rw [if_neg (fun h => hn h.2)]
      unfold periodicRecentTool.Handler
      simp only [hne, hc, hp, not_lt.mp hn, if_false, if_true, not_true_eq_false]
  · have hc : periods.contains (request.GetString "period" "daily") = false := by
      simpa using hp
    rw [if_neg (fun h => hp h.1)]
    unfold periodicRecentTool.Handler
    by_cases he : request.GetString "period" "daily" = ""
    · simp only [he, if_true]
    · simp only [he, hc, hp, if_false, Bool.false_eq_true, not_false_eq_true, if_true]

/-- C5: every handler turns an error `e` of its backend call into the envelope with
`is_error = true` and text `e`, with a nil protocol-level error, the history being the one the
backend call left. The protocol-level error is nil on every path of the calendar,
file-contents, file-by-name and periodic-note handlers whatever the backend and the marshaller
do; for the handlers that finish through `toJSON` (vault and directory listings, the three
searches) it is nil for every backend outcome given that `json.Marshal` succeeds on the values
of the listing type, which is the one way `toJSON` yields a protocol error. -/
theorem C5_backend_error_is_tool_error (rt : Runtime) (o : Obsidian) (hist : List Call)
    (request : CallToolRequest) :
    (∀ e : Error,
      ((o.ListFilesInVault hist).1.2 = some e →
        listFilesInVault.Handler rt o hist request =
          ((some { Text := e, IsError := true }, none), (o.ListFilesInVault hist).2)) ∧
      (request.GetString "dirpath" "" ≠ "" →
        (o.ListFilesInDir hist (request.GetString "dirpath" "")).1.2 = some e →
        listFilesInDir.Handler rt o hist request =
          ((some { Text := e, IsError := true }, none),
            (o.ListFilesInDir hist (request.GetString "dirpath" "")).2)) ∧
      (request.GetString "filepath" "" ≠ "" →
        (o.GetFileContents hist (request.GetString "filepath" "")).1.2 = some e →
        getFileContents.Handler rt o hist request =
          ((some { Text := e, IsError := true }, none),
            (o.GetFileContents hist (request.GetString "filepath" "")).2)) ∧
      (request.GetString "filename" "" ≠ "" →
        (Obsidian.GetFileByName rt o hist
          (getFileByName.bareName (request.GetString "filename" ""))
          (request.GetBool "include_content" false)).1.2 = some e →
        getFileByName.Handler rt o hist request =
          ((some { Text := e, IsError := true }, none),
            (Obsidian.GetFileByName rt o hist
              (getFileByName.bareName (request.GetString "filename" ""))
              (request.GetBool "include_content" false)).2)) ∧
      (request.GetString "query" "" ≠ "" → 0 < request.GetInt "content_length" 100 →
        (Obsidian.SimpleSearch rt o hist (request.GetString "query" "")
          (request.GetInt "content_length" 100)).1.2 = some e →
        simpleSearchTool.Handler rt o hist request =
          ((some { Text := e, IsError := true }, none),
            (Obsidian.SimpleSearch rt o hist (request.GetString "query" "")
              (request.GetInt "content_length" 100)).2)) ∧
      (request.GetString "query" "" ≠ "" →
        (o.ComplexSearch hist (request.GetString "query" "")
          "application/vnd.olrapi.jsonlogic+json").1.2 = some e →
        jsonlogicSearchTool.Handler rt o hist request =
          ((some { Text := e, IsError := true }, none),
            (o.ComplexSearch hist (request.GetString "query" "")
              "application/vnd.olrapi.jsonlogic+json").2)) ∧
      (request.GetString "query" "" ≠ "" →
        (o.ComplexSearch hist (request.GetString "query" "")
          "application/vnd.olrapi.dataview.dql+txt").1.2 = some e →
        dataviewSearchTool.Handler rt o hist request =
          ((some { Text := e, IsError := true }, none),
            (o.ComplexSearch hist (request.GetString "query" "")
              "application/vnd.olrapi.dataview.dql+txt").2)) ∧
      (request.GetString "period" "daily" ∈ periods →
        (o.GetPeriodicNote hist (request.GetString "period" "daily")).1.2 = some e →
        periodicNoteTool.Handler rt o hist request =
          ((some { Text := e, IsError := true }, none),
            (o.GetPeriodicNote hist (request.GetString "period" "daily")).2)) ∧
      (request.GetString "period" "daily" ∈ periods →
        (o.GetPeriodicNoteByDate hist (request.GetString "period" "daily")
          (request.GetString "date" rt.nowDate)).1.2 = some e →
        periodicDateTool.Handler rt o hist request =
          ((some { Text := e, IsError := true }, none),
            (o.GetPeriodicNoteByDate hist (request.GetString "period" "daily")
              (request.GetString "date" rt.nowDate)).2)) ∧
      (request.GetString "period" "daily" ∈ periods → 0 < request.GetInt "limit" 5 →
        (o.GetPeriodicNoteRecent hist (request.GetString "period" "daily")
          (request.GetInt "limit" 5) (request.GetBool "include_content" false)).1.2 = some e →
        periodicRecentTool.Handler rt o hist request =
          ((some { Text := e, IsError := true }, none),
            (o.GetPeriodicNoteRecent hist (request.GetString "period" "daily")
              (request.GetInt "limit" 5) (request.GetBool "include_content" false)).2))) ∧
    ((calendarTool.Handler rt hist request).1.2 = none ∧
      (getFileContents.Handler rt o hist request).1.2 = none ∧
      (getFileByName.Handler rt o hist request).1.2 = none ∧
      (periodicNoteTool.Handler rt o hist request).1.2 = none ∧
      (periodicDateTool.Handler rt o hist request).1.2 = none ∧
      (periodicRecentTool.Handler rt o hist request).1.2 = none) ∧
    ((∀ v, ∃ out, rt.marshalStrings v = Except.ok out) →
      (listFilesInVault.Handler rt o hist request).1.2 = none ∧
      (listFilesInDir.Handler rt o hist request).1.2 = none) ∧
    ((∀ v, ∃ out, rt.marshalSearch v = Except.ok out) →
      (simpleSearchTool.Handler rt o hist request).1.2 = none) ∧
    ((∀ v, ∃ out, rt.marshalComplex v = Except.ok out) →
      (jsonlogicSearchTool.Handler rt o hist request).1.2 = none ∧
      (dataviewSearchTool.Handler rt o hist request).1.2 = none) := by
  refine ⟨fun e => ⟨?_, ?_, ?_, ?_, ?_, ?_, ?_, ?_, ?_, ?_⟩, ⟨?_, ?_, ?_, ?_, ?_, ?_⟩, ?_, ?_, ?_⟩
  · intro h
    rw [listFilesInVault_eq]
    exact afterBackend_error _ _ e h
  · intro hv h
    rw [listFilesInDir_eq, if_neg hv]
    exact afterBackend_error _ _ e h
  · intro hv h
    rw [getFileContents_eq, if_neg hv]
    exact afterBackend_error _ _ e h
  · intro hv h
    rw [getFileByName_eq, if_neg hv]
    exact afterBackend_error _ _ e h
  · intro hv hn h
    rw [simpleSearch_valid rt o hist request hv hn]
    exact afterBackend_error _ _ e h
  · intro hv h
    rw [jsonlogicSearch_eq, if_neg hv]
    exact afterBackend_error _ _ e h
  · intro hv h
    rw [dataviewSearch_eq, if_neg hv]
    exact afterBackend_error _ _ e h
  · intro hv h
    rw [periodicNote_valid rt o hist request hv]
    exact afterBackend_error _ _ e h
  · intro hv h
    rw [periodicDate_valid rt o hist request hv]
    exact afterBackend_error _ _ e h
  · intro hv hn h
    rw [periodicRecent_valid rt o hist request hv hn]
    exact afterBackend_error _ _ e h
  · rfl
  · rw [getFileContents_eq]
    split_ifs
    · rfl
    · exact afterBackend_marshalOrError_protocol _ _
  · rw [getFileByName_eq]
    split_ifs
    · rfl
    · exact afterBackend_marshalOrError_protocol _ _
  · by_cases hp : request.GetString "period" "daily" ∈ periods
    · rw [periodicNote_valid rt o hist request hp]
      exact afterBackend_marshalOrError_protocol _ _
    · rw [periodicNote_invalid rt o hist request hp]
      rfl
  · by_cases hp : request.GetString "period" "daily" ∈ periods
    · rw [periodicDate_valid rt o hist request hp]
      exact afterBackend_marshalOrError_protocol _ _
    · rw [periodicDate_invalid rt o hist request hp]
      rfl
  · rw [periodicRecent_eq]
    split_ifs <;> first | exact afterBackend_marshalOrError_protocol _ _ | rfl
  · intro hm
    constructor
    · rw [listFilesInVault_eq]
      exact afterBackend_toJSON_protocol _ hm _
    · rw [listFilesInDir_eq]
      split_ifs
      · rfl
      · exact afterBackend_toJSON_protocol _ hm _
  · intro hm
    rw [simpleSearch_eq]
    split_ifs
    · rfl
    · rfl
    · exact afterBackend_toJSON_protocol _ hm _
  · intro hm
    constructor
    · rw [jsonlogicSearch_eq]
      split_ifs
      · rfl
      · exact afterBackend_toJSON_protocol _ hm _
    · rw [dataviewSearch_eq]
      split_ifs
      · rfl
      · exact afterBackend_toJSON_protocol _ hm _

/-- C5 at a server that is down: the vault listing answers with the tool error `down`, and
with the sample marshallers its protocol-level error is nil. -/
theorem C5_backend_error_is_tool_error_witness :
    listFilesInVault.Handler sampleRuntime downObsidian [] { Arguments := [] } =
      ((some { Text := "down", IsError := true }, none),
        [{ method := "GET", path := "https://vault/vault/", body := none, contentType := "" }]) ∧
    (listFilesInVault.Handler sampleRuntime downObsidian [] { Arguments := [] }).1.2 = none :=
  ⟨((C5_backend_error_is_tool_error sampleRuntime downObsidian [] { Arguments := [] }).1
      "down").1 rfl,
   ((C5_backend_error_is_tool_error sampleRuntime downObsidian [] { Arguments := [] }).2.2.1
      (fun _ => ⟨"[]", rfl⟩)).1⟩

theorem replaceFrom_single (a : Char) (new cs : List Char) :
    replaceFrom [a] new 0 cs = cs.flatMap (fun c => if c = a then new else [c]) := by
  induction cs with
  | nil => rfl
  | cons c cs ih =>
    by_cases hc : c = a
    · subst hc
      simp [replaceFrom, List.isPrefixOf, ih]
    · have hne : ¬ a = c := fun h => hc h.symm
      simp [replaceFrom, List.isPrefixOf, ih, hc, hne]

theorem ReplaceAll_space (s : String) :
    ReplaceAll s " " "%20" = ⟨encodeSpaces s.data⟩ := by
  unfold ReplaceAll replaceAllChars encodeSpaces
  have h1 : (" " : String).data = [' '] := rfl
  have h2 : ("%20" : String).data = ['%', '2', '0'] := rfl
  rw [h1, h2, if_neg (by decide), if_neg (by decide), replaceFrom_single]

theorem ReplaceAll_dash (s : String) :
    ReplaceAll s "-" "/" = ⟨dashesToSlashes s.data⟩ := by
  unfold ReplaceAll replaceAllChars dashesToSlashes
  have h1 : ("-" : String).data = ['-'] := rfl
  have h2 : ("/" : String).data = ['/'] := rfl
  rw [h1, h2, if_neg (by decide), if_neg (by decide), replaceFrom_single]
  congr 1
  induction s.data with
  | nil => rfl
  | cons c cs ih =>
    by_cases hc : c = '-' <;> simp [hc, ih]

theorem TrimPrefix_slash_cons (rest : String) : TrimPrefix ("/" ++ rest) "/" = rest := by
  unfold TrimPrefix trimPrefixChars
  have h1 : ("/" : String).data = ['/'] := rfl
  simp [String.data_append, h1, List.isPrefixOf]

theorem TrimPrefix_slash_none (s : String) (h : s.data.head? ≠ some '/') :
    TrimPrefix s "/" = s := by
  unfold TrimPrefix trimPrefixChars
  have h1 : ("/" : String).data = ['/'] := rfl
  rw [h1]
  rcases hs : s.data with _ | ⟨c, cs⟩
  · have : s = ⟨[]⟩ := by cases s; simp_all
    simp [List.isPrefixOf, this]
  · have hc : ¬ '/' = c := by
      intro hc; apply h; rw [hs, ← hc]; rfl
    have : s = ⟨c :: cs⟩ := by cases s; simp_all
    simp [List.isPrefixOf, hc, this]

theorem ListFilesInDir_history (o : Obsidian) (hist : List Call) (dir : String) :
    (o.ListFilesInDir hist dir).2 =
      hist ++ [vaultCall o (ReplaceAll (TrimPrefix dir "/") " " "%20")] := by
  unfold Obsidian.ListFilesInDir Obsidian.call vaultCall
  dsimp only
  cases o.client.files hist _ <;> rfl

theorem GetFileContents_history (o : Obsidian) (hist : List Call) (filepath : String) :
    (o.GetFileContents hist filepath).2 =
      hist ++ [vaultCall o (ReplaceAll (TrimPrefix filepath "/") " " "%20")] := by
  unfold Obsidian.GetFileContents Obsidian.call vaultCall
  dsimp only
  cases o.client.file hist _ <;> rfl

/-- C6: for a string `"/" ++ rest`, the one request of `ListFilesInDir`, and likewise of
`GetFileContents`, is a GET of `apiHost + "/vault/" + e`, where `e` is `rest` with every space
replaced by `%20` and every other character unchanged; for a string that does not begin with
`/` the same holds with `e` computed from the whole string. -/
theorem C6_vault_path_encoding (o : Obsidian) (hist : List Call) (dir rest : String) :
    (dir = "/" ++ rest →
      (o.ListFilesInDir hist dir).2 =
        hist ++ [{ method := "GET",
                   path := o.conf.ObsidianAPIHost ++ "/vault/" ++ ⟨encodeSpaces rest.data⟩,
                   body := none, contentType := "" }] ∧
      (o.GetFileContents hist dir).2 =
        hist ++ [{ method := "GET",
                   path := o.conf.ObsidianAPIHost ++ "/vault/" ++ ⟨encodeSpaces rest.data⟩,
                   body := none, contentType := "" }]) ∧
    (dir.data.head? ≠ some '/' →
      (o.ListFilesInDir hist dir).2 =
        hist ++ [{ method := "GET",
                   path := o.conf.ObsidianAPIHost ++ "/vault/" ++ ⟨encodeSpaces dir.data⟩,
                   body := none, contentType := "" }] ∧
      (o.GetFileContents hist dir).2 =
        hist ++ [{ method := "GET",
                   path := o.conf.ObsidianAPIHost ++ "/vault/" ++ ⟨encodeSpaces dir.data⟩,
                   body := none, contentType := "" }]) := by
  constructor
  · intro h
    subst h
    rw [ListFilesInDir_history, GetFileContents_history, TrimPrefix_slash_cons, ReplaceAll_space]
    exact ⟨rfl, rfl⟩
  · intro h
    rw [ListFilesInDir_history, GetFileContents_history, TrimPrefix_slash_none dir h,
      ReplaceAll_space]
    exact ⟨rfl, rfl⟩

/-- C6 at the directory `/my notes/a b`. -/
theorem C6_vault_path_encoding_witness :
    (downObsidian.ListFilesInDir [] "/my notes/a b").2 =
      [{ method := "GET", path := "https://vault/vault/my%20notes/a%20b", body := none,
         contentType := "" }] :=
  ((C6_vault_path_encoding downObsidian [] "/my notes/a b" "my notes/a b").1 rfl).1

/-- C7: the one request of `GetPeriodicNoteByDate(period, date)` is a GET of
`apiHost + "/periodic/" + period + "/" + d`, where `d` is `date` with every `-` replaced by
`/`; for `daily` and `2024-03-07` that URL is `apiHost + "/periodic/daily/2024/03/07"`. -/
theorem C7_periodic_date_path (o : Obsidian) (hist : List Call) (period date : String) :
    (o.GetPeriodicNoteByDate hist period date).2 =
      hist ++ [{ method := "GET",
                 path := o.conf.ObsidianAPIHost ++ "/periodic/" ++ period ++ "/"
                   ++ ⟨dashesToSlashes date.data⟩,
                 body := none, contentType := "" }] ∧
    (o.GetPeriodicNoteByDate hist "daily" "2024-03-07").2 =
      hist ++ [{ method := "GET",
                 path := o.conf.ObsidianAPIHost ++ "/periodic/daily/2024/03/07",
                 body := none, contentType := "" }] := by
  constructor
  · rw [GetPeriodicNoteByDate_history, ReplaceAll_dash]
    rfl
  · rw [GetPeriodicNoteByDate_history]
    have h : o.conf.ObsidianAPIHost ++ "/periodic/" ++ "daily" ++ "/"
        ++ ReplaceAll "2024-03-07" "-" "/"
        = o.conf.ObsidianAPIHost ++ "/periodic/daily/2024/03/07" := by
      have hr : ReplaceAll "2024-03-07" "-" "/" = "2024/03/07" := by decide
      rw [hr, String.append_assoc, String.append_assoc, String.append_assoc]
      rfl
    unfold periodicDateCall
    rw [h]

theorem GetFileContents_ok (o : Obsidian) (hist : List Call) (m : ComplexResult)
    (f : FileContents) (h : o.client.file hist (fetchCall o m) = Except.ok f) :
    o.GetFileContents hist m.Filename = ((f, none), hist ++ [fetchCall o m]) := by
  unfold fetchCall vaultCall at h
  unfold Obsidian.GetFileContents Obsidian.call fetchCall vaultCall
  dsimp only
  rw [h]

theorem GetFileContents_error (o : Obsidian) (hist : List Call) (m : ComplexResult)
    (e : Error) (h : o.client.file hist (fetchCall o m) = Except.error e) :
    ∃ v, o.GetFileContents hist m.Filename = ((v, some e), hist ++ [fetchCall o m]) := by
  unfold fetchCall vaultCall at h
  unfold Obsidian.GetFileContents Obsidian.call fetchCall vaultCall
  dsimp only
  rw [h]
  exact ⟨_, rfl⟩

theorem ComplexSearch_ok (o : Obsidian) (hist : List Call) (query queryType : String)
    (ms : List ComplexResult)
    (h : o.client.complex hist (complexCall o query queryType) = Except.ok ms) :
    o.ComplexSearch hist query queryType =
      ((ms, none), hist ++ [complexCall o query queryType]) := by
  unfold complexCall at h
  unfold Obsidian.ComplexSearch Obsidian.call complexCall
  dsimp only
  rw [h]

theorem ComplexSearch_error (o : Obsidian) (hist : List Call) (query queryType : String)
    (e : Error)
    (h : o.client.complex hist (complexCall o query queryType) = Except.error e) :
    o.ComplexSearch hist query queryType =
      (([], some e), hist ++ [complexCall o query queryType]) := by
  unfold complexCall at h
  unfold Obsidian.ComplexSearch Obsidian.call complexCall
  dsimp only
  rw [h]

theorem loop_ok (o : Obsidian) (includeContent : Bool) (ms : List ComplexResult) :
    ∀ (fs results : List FileContents) (h : List Call), fs.length = ms.length →
      (∀ i m f, ms[i]? = some m → fs[i]? = some f →
        o.client.file (h ++ (ms.take i).map (fetchCall o)) (fetchCall o m) = Except.ok f) →
      Obsidian.GetFileByName.loop o includeContent ms results h =
        ((results ++ fs.map (clearContent includeContent), none),
          h ++ ms.map (fetchCall o)) := by
  induction ms with
  | nil =>
    intro fs results h hlen _
    have : fs = [] := List.length_eq_zero.mp hlen
    subst this
    simp [Obsidian.GetFileByName.loop]
  | cons m ms ih =>
    intro fs results h hlen hf
    rcases fs with _ | ⟨f, fs⟩
    · simp at hlen
    · have h0 := hf 0 m f (by simp) (by simp)
      simp only [List.take_zero, List.map_nil, List.append_nil] at h0
      have hlen1 : fs.length = ms.length := by simpa using hlen
      have hf1 : ∀ i m1 f1, ms[i]? = some m1 → fs[i]? = some f1 →
          o.client.file ((h ++ [fetchCall o m]) ++ (ms.take i).map (fetchCall o))
            (fetchCall o m1) = Except.ok f1 := by
        intro i m1 f1 hm1 hf1
        have := hf (i + 1) m1 f1 (by simpa using hm1) (by simpa using hf1)
        simpa using this
      unfold Obsidian.GetFileByName.loop
      rw [GetFileContents_ok o h m f h0]
      dsimp only
      rw [ih fs _ _ hlen1 hf1]
      cases includeContent <;> simp [clearContent]

theorem loop_error (o : Obsidian) (includeContent : Bool) (e : Error)
    (ms : List ComplexResult) :
    ∀ (i : Nat) (results : List FileContents) (h : List Call) (mi : ComplexResult),
      ms[i]? = some mi →
      (∀ j m, j < i → ms[j]? = some m →
        ∃ f, o.client.file (h ++ (ms.take j).map (fetchCall o)) (fetchCall o m) = Except.ok f) →
      o.client.file (h ++ (ms.take i).map (fetchCall o)) (fetchCall o mi) = Except.error e →
      Obsidian.GetFileByName.loop o includeContent ms results h =
        (([], some e), h ++ (ms.take (i + 1)).map (fetchCall o)) := by
  induction ms with
  | nil =>
    intro i results h mi hmi
    simp at hmi
  | cons m ms ih =>
    intro i results h mi hmi hbefore herr
    cases i with
    | zero =>
      simp only [List.getElem?_cons_zero, Option.some.injEq] at hmi
      subst hmi
      simp only [List.take_zero, List.map_nil, List.append_nil] at herr
      obtain ⟨v, hv⟩ := GetFileContents_error o h m e herr
      unfold Obsidian.GetFileByName.loop
      rw [hv]
      simp
    | succ i =>
      obtain ⟨f, hf⟩ := hbefore 0 m (Nat.succ_pos i) (by simp)
      simp only [List.take_zero, List.map_nil, List.append_nil] at hf
      have hmi1 : ms[i]? = some mi := by simpa using hmi
      have hbefore1 : ∀ j m1, j < i → ms[j]? = some m1 →
          ∃ f1, o.client.file ((h ++ [fetchCall o m]) ++ (ms.take j).map (fetchCall o))
            (fetchCall o m1) = Except.ok f1 := by
        intro j m1 hj hm1
        obtain ⟨f1, hf1⟩ := hbefore (j + 1) m1 (Nat.succ_lt_succ hj) (by simpa using hm1)
        exact ⟨f1, by simpa using hf1⟩
      have herr1 : o.client.file ((h ++ [fetchCall o m]) ++ (ms.take i).map (fetchCall o))
          (fetchCall o mi) = Except.error e := by simpa using herr
      unfold Obsidian.GetFileByName.loop
      rw [GetFileContents_ok o h m f hf]
      dsimp only
      rw [ih i _ _ mi hmi1 hbefore1 herr1]
      simp

theorem GetFileByName_ok (rt : Runtime) (o : Obsidian) (hist : List Call) (filename : String)
    (includeContent : Bool) (ms : List ComplexResult) (fs : List FileContents)
    (hq : o.client.complex hist (searchCall rt o filename) = Except.ok ms)
    (hlen : fs.length = ms.length)
    (hf : ∀ i m f, ms[i]? = some m → fs[i]? = some f →
      o.client.file (historyBeforeFetch rt o hist filename ms i) (fetchCall o m) = Except.ok f) :
    Obsidian.GetFileByName rt o hist filename includeContent =
      ((fs.map (clearContent includeContent), none),
        hist ++ searchCall rt o filename :: ms.map (fetchCall o)) := by
  unfold Obsidian.GetFileByName
  unfold searchCall at hq
  rw [ComplexSearch_ok o hist _ _ ms hq]
  dsimp only
  have hf1 : ∀ i m f, ms[i]? = some m → fs[i]? = some f →
      o.client.file ((hist ++ [searchCall rt o filename]) ++ (ms.take i).map (fetchCall o))
        (fetchCall o m) = Except.ok f := by
    intro i m f hm hfi
    have := hf i m f hm hfi
    unfold historyBeforeFetch at this
    simpa using this
  have := loop_ok o includeContent ms fs [] _ hlen hf1
  unfold searchCall at this
  rw [this]
  simp [searchCall]

theorem GetFileByName_fetch_error (rt : Runtime) (o : Obsidian) (hist : List Call)
    (filename : String) (includeContent : Bool) (e : Error) (ms : List ComplexResult)
    (i : Nat) (mi : ComplexResult)
    (hq : o.client.complex hist (searchCall rt o filename) = Except.ok ms)
    (hmi : ms[i]? = some mi)
    (hbefore : ∀ j m, j < i → ms[j]? = some m →
      ∃ f, o.client.file (historyBeforeFetch rt o hist filename ms j) (fetchCall o m)
        = Except.ok f)
    (herr : o.client.file (historyBeforeFetch rt o hist filename ms i) (fetchCall o mi)
      = Except.error e) :
    Obsidian.GetFileByName rt o hist filename includeContent =
      (([], some e), historyBeforeFetch rt o hist filename ms (i + 1)) := by
  unfold Obsidian.GetFileByName
  unfold searchCall at hq
  rw [ComplexSearch_ok o hist _ _ ms hq]
  dsimp only
  have hb1 : ∀ j m, j < i → ms[j]? = some m →
      ∃ f, o.client.file ((hist ++ [searchCall rt o filename]) ++ (ms.take j).map (fetchCall o))
        (fetchCall o m) = Except.ok f := by
    intro j m hj hm
    obtain ⟨f, hf⟩ := hbefore j m hj hm
    unfold historyBeforeFetch at hf
    exact ⟨f, by simpa using hf⟩
  have he1 : o.client.file ((hist ++ [searchCall rt o filename]) ++ (ms.take i).map (fetchCall o))
      (fetchCall o mi) = Except.error e := by
    unfold historyBeforeFetch at herr
    simpa using herr
  have := loop_error o includeContent e ms i [] _ mi hmi hb1 he1
  unfold searchCall at this
  rw [this]
  unfold historyBeforeFetch searchCall
  simp

/-- C8: when the name query answers with the matches `ms` and the fetch of each match succeeds,
`fs` listing the fetched values in match order, `GetFileByName` returns no error and exactly
the list `fs` in that order, of the length of `ms` (empty for no match), each entry with its
content emptied and its other fields unchanged when `includeContent` is false, and unchanged
when it is true. -/
theorem C8_entries_in_match_order (rt : Runtime) (o : Obsidian) (hist : List Call)
    (filename : String) (includeContent : Bool) (ms : List ComplexResult)
    (fs : List FileContents)
    (hq : o.client.complex hist (searchCall rt o filename) = Except.ok ms)
    (hlen : fs.length = ms.length)
    (hf : ∀ i m f, ms[i]? = some m → fs[i]? = some f →
      o.client.file (historyBeforeFetch rt o hist filename ms i) (fetchCall o m) = Except.ok f) :
    (Obsidian.GetFileByName rt o hist filename includeContent).1 =
      (fs.map (clearContent includeContent), none) ∧
    (Obsidian.GetFileByName rt o hist filename includeContent).1.1.length = ms.length ∧
    (∀ (i : Nat) (f : FileContents), fs[i]? = some f →
      (Obsidian.GetFileByName rt o hist filename includeContent).1.1[i]? =
        some (if includeContent then f
          else ({ Content := "", Frontmatter := f.Frontmatter, Path := f.Path, Stat := f.Stat,
                  Tags := f.Tags } : FileContents))) := by
  rw [GetFileByName_ok rt o hist filename includeContent ms fs hq hlen hf]
  refine ⟨rfl, by simp [hlen], ?_⟩
  intro i f hfi
  simp only [List.getElem?_map, hfi, Option.map_some']
  cases includeContent <;> rfl

/-- C8 at a server with the single match `note.md`, content not requested. -/
theorem C8_entries_in_match_order_witness :
    (Obsidian.GetFileByName sampleRuntime noteObsidian [] "note" false).1 =
      ([{ Content := "", Frontmatter := [], Path := "note.md", Stat := ⟨1, 2, 5⟩,
          Tags := ["t"] }], none) :=
  (C8_entries_in_match_order sampleRuntime noteObsidian [] "note" false
    [{ Filename := "note.md", Result := Any.null }]
    [{ Content := "hello", Frontmatter := [], Path := "note.md", Stat := ⟨1, 2, 5⟩,
       Tags := ["t"] }]
    rfl rfl
    (by
      intro i m f _ hfi
      cases i with
      | zero =>
        simp only [List.getElem?_cons_zero, Option.some.injEq] at hfi
        subst hfi
        rfl
      | succ i => simp at hfi)).1

/-- C9: when the name query answers with the matches `ms`, the fetches of the matches before
position `i` succeed and the fetch of the match at position `i` fails with `e`, `GetFileByName`
returns the error `e` with an empty result, and the requests it made are the name query and
the fetches of the matches up to and including position `i`, none for a later match; when the
name query itself fails with `e`, it returns `e` with an empty result and the name query is
the only request. -/
theorem C9_first_failure_aborts (rt : Runtime) (o : Obsidian) (hist : List Call)
    (filename : String) (includeContent : Bool) (e : Error) :
    (∀ (ms : List ComplexResult) (i : Nat) (mi : ComplexResult),
      o.client.complex hist (searchCall rt o filename) = Except.ok ms →
      ms[i]? = some mi →
      (∀ j m, j < i → ms[j]? = some m →
        ∃ f, o.client.file (historyBeforeFetch rt o hist filename ms j) (fetchCall o m)
          = Except.ok f) →
      o.client.file (historyBeforeFetch rt o hist filename ms i) (fetchCall o mi)
        = Except.error e →
      Obsidian.GetFileByName rt o hist filename includeContent =
        (([], some e),
          hist ++ searchCall rt o filename :: (ms.take (i + 1)).map (fetchCall o))) ∧
    (o.client.complex hist (searchCall rt o filename) = Except.error e →
      Obsidian.GetFileByName rt o hist filename includeContent =
        (([], some e), hist ++ [searchCall rt o filename])) := by
  constructor
  · intro ms i mi hq hmi hbefore herr
    exact GetFileByName_fetch_error rt o hist filename includeContent e ms i mi hq hmi
      hbefore herr
  · intro hq
    unfold Obsidian.GetFileByName
    unfold searchCall at hq
    rw [ComplexSearch_error o hist _ _ e hq]
    rfl

/-- C9 at a server with the matches `a.md` and `b c.md` where the second fetch fails: the error
is returned with no result, after the name query and the two fetches. -/
theorem C9_first_failure_aborts_witness :
    Obsidian.GetFileByName sampleRuntime flakyObsidian [] "x" true =
      (([], some "gone"),
        [searchCall sampleRuntime flakyObsidian "x",
         fetchCall flakyObsidian { Filename := "a.md", Result := Any.null },
         fetchCall flakyObsidian { Filename := "b c.md", Result := Any.null }]) :=
  (C9_first_failure_aborts sampleRuntime flakyObsidian [] "x" true "gone").1
    [{ Filename := "a.md", Result := Any.null }, { Filename := "b c.md", Result := Any.null }]
    1 { Filename := "b c.md", Result := Any.null } rfl (by simp)
    (by
      intro j m hj hm
      have hj0 : j = 0 := by omega
      subst hj0
      simp only [List.getElem?_cons_zero, Option.some.injEq] at hm
      subst hm
      exact ⟨_, rfl⟩)
    rfl

/-- C10, the claim fails: at a server whose answer to the file fetch has no `path` key,
`GetFileByName("note", false)` succeeds and its one entry has the empty path. -/
theorem C10_entry_path_can_be_empty :
    (Obsidian.GetFileByName sampleRuntime pathlessObsidian [] "note" false).1.2 = none ∧
    (Obsidian.GetFileByName sampleRuntime pathlessObsidian [] "note" false).1.1.map
      (fun f => f.Path) = [""] :=
  ⟨rfl, rfl⟩

/-- C10, amended: when the name query answers with the matches `ms` and the fetch of each match
succeeds, `fs` listing the fetched values in match order, `GetFileByName` succeeds and the path
fields of its entries are, in order, the path fields of the fetched values, for either value of
`includeContent`; so every entry has a non-empty path exactly when every fetched value has
one. -/
theorem C10_entry_path_is_fetched_path (rt : Runtime) (o : Obsidian) (hist : List Call)
    (filename : String) (includeContent : Bool) (ms : List ComplexResult)
    (fs : List FileContents)
    (hq : o.client.complex hist (searchCall rt o filename) = Except.ok ms)
    (hlen : fs.length = ms.length)
    (hf : ∀ i m f, ms[i]? = some m → fs[i]? = some f →
      o.client.file (historyBeforeFetch rt o hist filename ms i) (fetchCall o m) = Except.ok f) :
    (Obsidian.GetFileByName rt o hist filename includeContent).1.2 = none ∧
    (Obsidian.GetFileByName rt o hist filename includeContent).1.1.map (fun f => f.Path) =
      fs.map (fun f => f.Path) ∧
    ((∀ r ∈ (Obsidian.GetFileByName rt o hist filename includeContent).1.1, r.Path ≠ "") ↔
      (∀ f ∈ fs, f.Path ≠ "")) := by
  rw [GetFileByName_ok rt o hist filename includeContent ms fs hq hlen hf]
  have hpath : ∀ f : FileContents, (clearContent includeContent f).Path = f.Path := by
    intro f
    cases includeContent <;> rfl
  refine ⟨rfl, ?_, ?_⟩
  · simp only [List.map_map]
    apply List.map_congr_left
    intro f _
    exact hpath f
  · constructor
    · intro h f hfm
      have := h (clearContent includeContent f) (List.mem_map_of_mem _ hfm)
      rwa [hpath] at this
    · intro h r hr
      obtain ⟨f, hfm, rfl⟩ := List.mem_map.mp hr
      rw [hpath]
      exact h f hfm

/-- C10 amended, at a server whose answer to the fetch of `note.md` carries the path
`note.md`. -/
theorem C10_entry_path_is_fetched_path_witness :
    (Obsidian.GetFileByName sampleRuntime noteObsidian [] "note" false).1.1.map
      (fun f => f.Path) = ["note.md"] :=
  (C10_entry_path_is_fetched_path sampleRuntime noteObsidian [] "note" false
    [{ Filename := "note.md", Result := Any.null }]
    [{ Content := "hello", Frontmatter := [], Path := "note.md", Stat := ⟨1, 2, 5⟩,
       Tags := ["t"] }]
    rfl rfl
    (by
      intro i m f _ hfi
      cases i with
      | zero =>
        simp only [List.getElem?_cons_zero, Option.some.injEq] at hfi
        subst hfi
        rfl
      | succ i => simp at hfi)).2.1

theorem keyMatches_fields :
    keyMatches "frontmatter" "content" = false ∧ keyMatches "tags" "content" = false ∧
    keyMatches "content" "content" = true ∧
    keyMatches "frontmatter" "frontmatter" = true ∧
    keyMatches "frontmatter" "path" = false ∧ keyMatches "tags" "path" = false ∧
    keyMatches "content" "path" = false ∧ keyMatches "path" "path" = true ∧
    keyMatches "frontmatter" "stat" = false ∧ keyMatches "tags" "stat" = false ∧
    keyMatches "content" "stat" = false ∧ keyMatches "path" "stat" = false ∧
    keyMatches "stat" "stat" = true ∧
    keyMatches "frontmatter" "tags" = false ∧ keyMatches "tags" "tags" = true ∧
    keyMatches "ctime" "ctime" = true ∧
    keyMatches "ctime" "mtime" = false ∧ keyMatches "mtime" "mtime" = true ∧
    keyMatches "ctime" "size" = false ∧ keyMatches "mtime" "size" = false ∧
    keyMatches "size" "size" = true := by
  decide

theorem decodeStringElems_strings (ts : List String) :
    decodeStringElems (ts.map Any.string) = Except.ok ts := by
  induction ts with
  | nil => rfl
  | cons t ts ih => simp [decodeStringElems, decodeString, ih]

theorem mapInsert_fresh (k : String) (v : Any) (m : List (String × Any))
    (h : k ∉ m.map Prod.fst) : mapInsert k v m = m ++ [(k, v)] := by
  induction m with
  | nil => rfl
  | cons kv m ih =>
    obtain ⟨k1, v1⟩ := kv
    simp only [List.map_cons, List.mem_cons, not_or] at h
    have hne : ¬ k1 = k := fun e => h.1 e.symm
    simp [mapInsert, hne, ih h.2]

theorem foldl_mapInsert_distinct (kvs : List (String × Any)) :
    ∀ acc : List (String × Any), ((acc ++ kvs).map Prod.fst).Nodup →
      kvs.foldl (fun m kv => mapInsert kv.1 kv.2 m) acc = acc ++ kvs := by
  induction kvs with
  | nil => intro acc _; simp
  | cons kv kvs ih =>
    intro acc h
    have hfresh : kv.1 ∉ acc.map Prod.fst := by
      intro hmem
      rw [List.map_append, List.map_cons] at h
      have := (List.nodup_append.mp h).2.2
      exact this hmem (List.mem_cons_self _ _)
    simp only [List.foldl_cons]
    rw [mapInsert_fresh kv.1 kv.2 acc hfresh]
    have h1 : (((acc ++ [(kv.1, kv.2)]) ++ kvs).map Prod.fst).Nodup := by
      simpa using h
    rw [ih _ h1]
    simp

theorem decodeInt_fits (cur n : Int) (h : -(2 ^ 63) ≤ n ∧ n < 2 ^ 63) :
    decodeInt cur (Any.number n) = Except.ok n := by
  show (if -(2 ^ 63) ≤ n ∧ n < 2 ^ 63 then Except.ok n
    else Except.error "json: cannot unmarshal number into Go value of type int") = Except.ok n
  rw [if_pos h]

theorem Stat_decode_jsonValue (cur s : Stat)
    (h1 : -(2 ^ 63) ≤ s.CTime ∧ s.CTime < 2 ^ 63)
    (h2 : -(2 ^ 63) ≤ s.MTime ∧ s.MTime < 2 ^ 63)
    (h3 : -(2 ^ 63) ≤ s.Size ∧ s.Size < 2 ^ 63) :
    Stat.decode cur s.jsonValue = Except.ok s := by
  simp only [Stat.decode, Stat.jsonValue, Stat.decodeMembers, Stat.decodeMember,
    keyMatches_fields, decodeInt_fits _ _ h1, decodeInt_fits _ _ h2, decodeInt_fits _ _ h3,
    if_true, Bool.false_eq_true, if_false]

theorem decodeMap_fresh (kvs : List (String × Any)) (h : (kvs.map Prod.fst).Nodup) :
    decodeMap [] (Any.object kvs) = Except.ok kvs := by
  show Except.ok (kvs.foldl (fun m kv => mapInsert kv.1 kv.2 m) []) = Except.ok kvs
  rw [foldl_mapInsert_distinct kvs [] (by simpa using h)]
  simp

theorem fromJsonValue_jsonValue (f : FileContents) (h : f.WellFormed) :
    FileContents.fromJsonValue f.jsonValue = Except.ok f := by
  obtain ⟨content, fm, path, stat, tags⟩ := f
  obtain ⟨hk, h1, h2, h3⟩ := h
  have hstat := Stat_decode_jsonValue (⟨0, 0, 0⟩ : Stat) stat h1 h2 h3
  have hmap := decodeMap_fresh fm hk
  have htags := decodeStringElems_strings tags
  by_cases hp : path = ""
  · subst hp
    rcases fm with _ | ⟨kv, fm⟩ <;> rcases tags with _ | ⟨t, tags⟩ <;>
      simp only [FileContents.fromJsonValue, FileContents.jsonValue, FileContents.zero,
        FileContents.decodeMembers, FileContents.decodeMember, keyMatches_fields, decodeString,
        decodeStrings, hstat, hmap, htags, List.isEmpty_nil, List.isEmpty_cons, if_true,
        if_false, Bool.false_eq_true, List.nil_append, List.cons_append, List.append_nil]
  · rcases fm with _ | ⟨kv, fm⟩ <;> rcases tags with _ | ⟨t, tags⟩ <;>
      simp only [FileContents.fromJsonValue, FileContents.jsonValue, FileContents.zero,
        FileContents.decodeMembers, FileContents.decodeMember, keyMatches_fields, decodeString,
        decodeStrings, hstat, hmap, htags, hp, List.isEmpty_nil, List.isEmpty_cons, if_true,
        if_false, Bool.false_eq_true, List.nil_append, List.cons_append, List.append_nil]

theorem decodeMember_withoutOptional (f : FileContents) (key : String) (v : Any)
    (h1 : keyMatches "frontmatter" key = false) (h2 : keyMatches "tags" key = false) :
    FileContents.decodeMember f.withoutOptional key v =
      match FileContents.decodeMember f key v with
      | Except.error e => Except.error e
      | Except.ok g => Except.ok g.withoutOptional := by
  unfold FileContents.decodeMember
  simp only [h1, h2, Bool.false_eq_true, if_false]
  split_ifs
  · show (match decodeString f.Content v with
      | Except.error e => Except.error e
      | Except.ok c => Except.ok { f.withoutOptional with Content := c }) = _
    cases decodeString f.Content v <;> rfl
  · show (match decodeString f.Path v with
      | Except.error e => Except.error e
      | Except.ok c => Except.ok { f.withoutOptional with Path := c }) = _
    cases decodeString f.Path v <;> rfl
  · show (match Stat.decode f.Stat v with
      | Except.error e => Except.error e
      | Except.ok st => Except.ok { f.withoutOptional with Stat := st }) = _
    cases Stat.decode f.Stat v <;> rfl
  · rfl

theorem decodeMember_optional (f g : FileContents) (key : String) (v : Any)
    (h : keyMatches "frontmatter" key = true ∨ keyMatches "tags" key = true)
    (hd : FileContents.decodeMember f key v = Except.ok g) :
    g.withoutOptional = f.withoutOptional := by
  unfold FileContents.decodeMember at hd
  by_cases h1 : keyMatches "frontmatter" key = true
  · simp only [h1, if_true] at hd
    cases hm : decodeMap f.Frontmatter v with
    | error e => simp [hm] at hd
    | ok m =>
      simp only [hm, Except.ok.injEq] at hd
      subst hd
      rfl
  · have h2 : keyMatches "tags" key = true := h.resolve_left h1
    have h1f : keyMatches "frontmatter" key = false := by
      cases hb : keyMatches "frontmatter" key
      · rfl
      · exact absurd hb h1
    simp only [h1f, h2, if_true, Bool.false_eq_true, if_false] at hd
    cases hm : decodeStrings v with
    | error e => simp [hm] at hd
    | ok m =>
      simp only [hm, Except.ok.injEq] at hd
      subst hd
      rfl

theorem decodeMembers_withoutOptional (kvs : List (String × Any)) :
    ∀ f g : FileContents, FileContents.decodeMembers f kvs = Except.ok g →
      FileContents.decodeMembers f.withoutOptional (withoutOptionalKeys kvs) =
        Except.ok g.withoutOptional := by
  induction kvs with
  | nil =>
    intro f g h
    simp only [FileContents.decodeMembers, Except.ok.injEq] at h
    subst h
    rfl
  | cons kv kvs ih =>
    intro f g h
    unfold FileContents.decodeMembers at h
    cases hm : FileContents.decodeMember f kv.1 kv.2 with
    | error e => simp [hm] at h
    | ok f1 =>
      simp only [hm] at h
      by_cases hopt : keyMatches "frontmatter" kv.1 = true ∨ keyMatches "tags" kv.1 = true
      · have hdrop : withoutOptionalKeys (kv :: kvs) = withoutOptionalKeys kvs := by
          unfold withoutOptionalKeys
          rcases hopt with h1 | h1 <;> simp [h1]
        rw [hdrop, ← decodeMember_optional f f1 kv.1 kv.2 hopt hm]
        exact ih f1 g h
      · have h1 : keyMatches "frontmatter" kv.1 = false := by
          cases hb : keyMatches "frontmatter" kv.1
          · rfl
          · exact absurd (Or.inl hb) hopt
        have h2 : keyMatches "tags" kv.1 = false := by
          cases hb : keyMatches "tags" kv.1
          · rfl
          · exact absurd (Or.inr hb) hopt
        have hkeep : withoutOptionalKeys (kv :: kvs) = kv :: withoutOptionalKeys kvs := by
          unfold withoutOptionalKeys
          simp [h1, h2]
        rw [hkeep]
        unfold FileContents.decodeMembers
        rw [decodeMember_withoutOptional f kv.1 kv.2 h1 h2, hm]
        exact ih f1 g h

/-- C11: for every `FileContents` a Go program can hold (distinct frontmatter keys, `stat`
numbers fitting an `int`), decoding the JSON value it marshals to gives back the same value:
the same content, frontmatter mapping, path, stat triple and tags. Taking the `frontmatter`
and `tags` members out of an object that decodes leaves an object that decodes, to the same
value with the frontmatter and the tags empty; an object none of whose keys selects
`frontmatter` or `tags` decodes, when it decodes, to empty frontmatter and tags; and the empty
object decodes to the zero value. -/
theorem C11_file_contents_json_roundtrip (f g : FileContents) (kvs : List (String × Any)) :
    (f.WellFormed → FileContents.fromJsonValue f.jsonValue = Except.ok f) ∧
    (FileContents.fromJsonValue (Any.object kvs) = Except.ok g →
      FileContents.fromJsonValue (Any.object (withoutOptionalKeys kvs)) =
        Except.ok { Content := g.Content, Frontmatter := [], Path := g.Path, Stat := g.Stat,
                    Tags := [] }) ∧
    ((∀ kv ∈ kvs, keyMatches "frontmatter" kv.1 = false ∧ keyMatches "tags" kv.1 = false) →
      FileContents.fromJsonValue (Any.object kvs) = Except.ok g →
      g.Frontmatter = [] ∧ g.Tags = []) ∧
    FileContents.fromJsonValue (Any.object []) = Except.ok FileContents.zero := by
  have hremove : FileContents.fromJsonValue (Any.object kvs) = Except.ok g →
      FileContents.fromJsonValue (Any.object (withoutOptionalKeys kvs)) =
        Except.ok g.withoutOptional := by
    intro h
    exact decodeMembers_withoutOptional kvs FileContents.zero g h
  refine ⟨fromJsonValue_jsonValue f, hremove, ?_, rfl⟩
  intro hkeys h
  have hid : withoutOptionalKeys kvs = kvs := by
    unfold withoutOptionalKeys
    rw [List.filter_eq_self]
    intro kv hkv
    simp [(hkeys kv hkv).1, (hkeys kv hkv).2]
  have h2 := hremove h
  rw [hid, h] at h2
  have h3 : g = g.withoutOptional := by
    simpa using h2
  constructor
  · rw [h3]; rfl
  · rw [h3]; rfl

/-- C11 at a note with every field set, and at an object holding only a `content` member. -/
theorem C11_file_contents_json_roundtrip_witness :
    FileContents.fromJsonValue sampleNote.jsonValue = Except.ok sampleNote ∧
    FileContents.fromJsonValue (Any.object [("content", Any.string "x")]) =
      Except.ok { FileContents.zero with Content := "x" } ∧
    (({ FileContents.zero with Content := "x" } : FileContents).Frontmatter = [] ∧
      ({ FileContents.zero with Content := "x" } : FileContents).Tags = []) :=
  ⟨(C11_file_contents_json_roundtrip sampleNote sampleNote []).1
      ⟨by decide, by decide, by decide, by decide⟩,
   rfl,
   (C11_file_contents_json_roundtrip sampleNote { FileContents.zero with Content := "x" }
      [("content", Any.string "x")]).2.2.1
      (by
        intro kv hkv
        simp only [List.mem_singleton] at hkv
        subst hkv
        exact ⟨by decide, by decide⟩)
      rfl⟩

/-- C12: evaluation of what the complex-search handlers marshal for a `ComplexResult`: an
object with exactly the two keys `filename` and `Result` (capital R), the first holding the
file name as a string and the second the query value unchanged; it has no member `result`. -/
theorem C12_complex_result_keys (c : ComplexResult) (rest : List ComplexResult) :
    c.jsonValue.keys = ["filename", "Result"] ∧
    c.jsonValue.member "filename" = some (Any.string c.Filename) ∧
    c.jsonValue.member "Result" = some c.Result ∧
    c.jsonValue.member "result" = none ∧
    complexResultsJsonValue (c :: rest) =
      Any.array (Any.object [("filename", Any.string c.Filename), ("Result", c.Result)]
        :: rest.map ComplexResult.jsonValue) := by
  refine ⟨rfl, ?_, ?_, ?_, rfl⟩
  · simp [ComplexResult.jsonValue, Any.member, List.lookup]
  · simp [ComplexResult.jsonValue, Any.member, List.lookup]
  · simp [ComplexResult.jsonValue, Any.member, List.lookup]

theorem canonical_Authorization : CanonicalMIMEHeaderKey "Authorization" = "Authorization" := by
  decide

theorem canonical_Accept : CanonicalMIMEHeaderKey "Accept" = "Accept" := by
  decide

theorem canonical_ContentType : CanonicalMIMEHeaderKey "Content-Type" = "Content-Type" := by
  decide

/-- C13: the round-tripper hands the underlying transport, whatever that transport is, one
request `fwd` with the method, URL and body of the incoming request, whose `Authorization`
values are the incoming ones followed by `"Bearer " + apiKey`, whose `Accept` values are the
incoming ones followed by `application/vnd.olrapi.note+json`, and whose values under every
other key are the incoming ones. For a request built by `Obsidian.call`, which sets at most
`Content-Type`, the two headers hold exactly those single values. -/
theorem C13_roundtripper_adds_headers (conf : Config) (req : Request) (c : Call) :
    (∃ fwd : Request,
      (∀ (α : Type) (transport : Request → α),
        roundtripper.RoundTrip { transport := transport, conf := conf } req = transport fwd) ∧
      fwd.Method = req.Method ∧ fwd.URL = req.URL ∧ fwd.Body = req.Body ∧
      fwd.Header "Authorization" =
        req.Header "Authorization" ++ ["Bearer " ++ conf.ObsidianAPIKey] ∧
      fwd.Header "Accept" = req.Header "Accept" ++ ["application/vnd.olrapi.note+json"] ∧
      (∀ k : String, k ≠ "Authorization" → k ≠ "Accept" → fwd.Header k = req.Header k)) ∧
    (∃ fwd : Request,
      (∀ (α : Type) (transport : Request → α),
        roundtripper.RoundTrip { transport := transport, conf := conf } c.request
          = transport fwd) ∧
      fwd.Method = c.method ∧ fwd.URL = c.path ∧ fwd.Body = c.body ∧
      fwd.Header "Authorization" = ["Bearer " ++ conf.ObsidianAPIKey] ∧
      fwd.Header "Accept" = ["application/vnd.olrapi.note+json"] ∧
      fwd.Header "Content-Type" = (if c.contentType = "" then [] else [c.contentType]) ∧
      (∀ k : String, k ≠ "Authorization" → k ≠ "Accept" → k ≠ "Content-Type" →
        fwd.Header k = [])) := by
  constructor
  · refine ⟨{ Method := req.Method, URL := req.URL, Body := req.Body,
               Header := (req.Header.Add "Authorization"
                 ("Bearer " ++ conf.ObsidianAPIKey)).Add "Accept"
                 "application/vnd.olrapi.note+json" },
      fun α transport => rfl, rfl, rfl, rfl, ?_, ?_, ?_⟩
    · simp [Header.Add, canonical_Authorization, canonical_Accept]
    · simp [Header.Add, canonical_Authorization, canonical_Accept]
    · intro k h1 h2
      simp [Header.Add, canonical_Authorization, canonical_Accept, h1, h2]
  · refine ⟨{ Method := c.request.Method, URL := c.request.URL, Body := c.request.Body,
               Header := (c.request.Header.Add "Authorization"
                 ("Bearer " ++ conf.ObsidianAPIKey)).Add "Accept"
                 "application/vnd.olrapi.note+json" },
      fun α transport => rfl, ?_, ?_, ?_, ?_, ?_, ?_, ?_⟩
    · unfold Call.request; split_ifs <;> rfl
    · unfold Call.request; split_ifs <;> rfl
    · unfold Call.request; split_ifs <;> rfl
    · unfold Call.request
      split_ifs <;>
        simp [Header.Add, Header.Set, Header.empty, canonical_Authorization, canonical_Accept,
          canonical_ContentType]
    · unfold Call.request
      split_ifs <;>
        simp [Header.Add, Header.Set, Header.empty, canonical_Authorization, canonical_Accept,
          canonical_ContentType]
    · unfold Call.request
      by_cases hc : c.contentType = "" <;>
        simp [Header.Add, Header.Set, Header.empty, canonical_Authorization, canonical_Accept,
          canonical_ContentType, hc]
    · intro k h1 h2 h3
      unfold Call.request
      split_ifs <;>
        simp [Header.Add, Header.Set, Header.empty, canonical_Authorization, canonical_Accept,
          canonical_ContentType, h1, h2, h3]

/-- C13 at a request built by `Obsidian.call` for the vault listing. -/
theorem C13_roundtripper_adds_headers_witness :
    ∃ fwd : Request,
      (∀ (α : Type) (transport : Request → α),
        roundtripper.RoundTrip { transport := transport, conf := downObsidian.conf }
          (Call.request (vaultCall downObsidian "a.md")) = transport fwd) ∧
      fwd.URL = "https://vault/vault/a.md" ∧
      fwd.Header "Authorization" = ["Bearer key"] ∧
      fwd.Header "Accept" = ["application/vnd.olrapi.note+json"] := by
  obtain ⟨fwd, h1, _, h3, _, h5, h6, _⟩ :=
    (C13_roundtripper_adds_headers downObsidian.conf
      (Call.request (vaultCall downObsidian "a.md")) (vaultCall downObsidian "a.md")).2
  exact ⟨fwd, h1, h3, h5, h6⟩

theorem takeWhile_short (p : Char → Bool) (l : List Char)
    (h : (l.takeWhile p).length < l.length) :
    ∃ x r, l = l.takeWhile p ++ x :: r ∧ p x = false := by
  have hsplit := List.takeWhile_append_dropWhile p l
  cases hd : l.dropWhile p with
  | nil =>
    rw [hd, List.append_nil] at hsplit
    rw [hsplit] at h
    exact absurd h (lt_irrefl _)
  | cons x r =>
    refine ⟨x, r, ?_, ?_⟩
    · rw [← hd, hsplit]
    · have := List.head?_dropWhile_not p l
      rw [hd] at this
      simpa using this

theorem extChars_suffix (b : List Char) : ∃ pre, b = pre ++ extChars b := by
  unfold extChars
  dsimp only
  split_ifs with h
  · obtain ⟨x, r, hlast, hx⟩ := takeWhile_short _ _ h
    have hxdot : x = '.' := by simpa using hx
    subst hxdot
    have hrev := List.takeWhile_append_dropWhile (fun c => c != '/') b.reverse
    refine ⟨(r ++ b.reverse.dropWhile (fun c => c != '/')).reverse, ?_⟩
    have hb : b.reverse =
        (List.takeWhile (fun c => c != '.') (List.takeWhile (fun c => c != '/') b.reverse))
          ++ '.' :: (r ++ b.reverse.dropWhile (fun c => c != '/')) := by
      conv_lhs => rw [← hrev, hlast]
      simp
    have := congrArg List.reverse hb
    simpa using this
  · exact ⟨b, by simp⟩

theorem bareName_data (s : String) :
    (getFileByName.bareName s).data =
      (baseChars s.data).take
        ((baseChars s.data).length - (extChars (baseChars s.data)).length) := by
  unfold getFileByName.bareName
  dsimp only
  split_ifs with h
  · rfl
  · have he : extChars (baseChars s.data) = [] := by
      by_contra hne
      apply h
      intro hcontra
      apply hne
      have := congrArg String.data hcontra
      simpa [Ext, Base] using this
    rw [he]
    simp [Base]

theorem take_length_sub_append (b pre e : List Char) (h : b = pre ++ e) :
    b.take (b.length - e.length) = pre := by
  subst h
  simp

theorem bareName_append_ext (s : String) :
    (getFileByName.bareName s).data ++ (Ext (Base s)).data = (Base s).data := by
  rw [bareName_data]
  obtain ⟨pre, hpre⟩ := extChars_suffix (baseChars s.data)
  show _ ++ extChars (baseChars s.data) = baseChars s.data
  rw [take_length_sub_append _ pre _ hpre]
  exact hpre.symm

theorem baseChars_cases (p : List Char) :
    (p = [] ∧ baseChars p = ['.']) ∨
    (p ≠ [] ∧ (∀ c ∈ p, c = '/') ∧ baseChars p = ['/']) ∨
    ((∃ c ∈ p, c ≠ '/') ∧ baseChars p ≠ [] ∧ '/' ∉ baseChars p) := by
  by_cases hp : p = []
  · left
    subst hp
    exact ⟨rfl, rfl⟩
  · right
    by_cases hall : ∀ c ∈ p, c = '/'
    · left
      refine ⟨hp, hall, ?_⟩
      have hd : p.reverse.dropWhile (fun c => c == '/') = [] := by
        rw [List.dropWhile_eq_nil_iff]
        intro x hx
        simpa using hall x (List.mem_reverse.mp hx)
      unfold baseChars
      simp [hp, hd]
    · right
      push_neg at hall
      refine ⟨hall, ?_⟩
      obtain ⟨c, hc, hne⟩ := hall
      cases hd : p.reverse.dropWhile (fun c => c == '/') with
      | nil =>
        rw [List.dropWhile_eq_nil_iff] at hd
        have := hd c (List.mem_reverse.mpr hc)
        exact absurd (by simpa using this) hne
      | cons x r =>
        have hx : ¬ (x == '/') = true := by
          have := List.head?_dropWhile_not (fun c => c == '/') p.reverse
          rw [hd] at this
          simpa using this
        have hx2 : (x != '/') = true := by simpa using hx
        have hlast : List.takeWhile (fun c => c != '/') (x :: r)
            = x :: List.takeWhile (fun c => c != '/') r :=
          List.takeWhile_cons_of_pos hx2
        unfold baseChars
        simp only [hp, if_false, hd, List.reverse_reverse, hlast]
        have hne2 : (x :: List.takeWhile (fun c => c != '/') r).reverse ≠ [] := by simp
        rw [if_neg hne2]
        refine ⟨hne2, ?_⟩
        intro hmem
        rw [List.mem_reverse, ← hlast] at hmem
        have := List.mem_takeWhile_imp hmem
        simp at this

theorem extChars_form (b : List Char) :
    extChars b = [] ∨ ∃ t, extChars b = '.' :: t ∧ '.' ∉ t := by
  unfold extChars
  dsimp only
  split_ifs with h
  · right
    refine ⟨_, rfl, ?_⟩
    intro hmem
    rw [List.mem_reverse] at hmem
    have := List.mem_takeWhile_imp hmem
    simp at this
  · left
    rfl

theorem extChars_dot_only (t : List Char) (hdot : '.' ∉ t) (hslash : '/' ∉ t) :
    extChars ('.' :: t) = '.' :: t := by
  have h1 : List.takeWhile (fun c => c != '/') ('.' :: t).reverse = ('.' :: t).reverse := by
    rw [List.takeWhile_eq_self_iff]
    intro x hx
    rw [List.mem_reverse, List.mem_cons] at hx
    rcases hx with rfl | hx
    · decide
    · have : x ≠ '/' := fun e => hslash (e ▸ hx)
      simpa using this
  have h2 : List.takeWhile (fun c => c != '.') ('.' :: t).reverse = t.reverse := by
    rw [List.reverse_cons, List.takeWhile_append_of_pos]
    · simp
    · intro x hx
      rw [List.mem_reverse] at hx
      have : x ≠ '.' := fun e => hdot (e ▸ hx)
      simpa using this
  unfold extChars
  dsimp only
  rw [h1, h2]
  simp

/-- C14, the claim fails: for the non-empty parameter `.md` the handler queries the empty name,
and for the non-empty parameter `/` it queries the name `/`. -/
theorem C14_bare_name_empty_or_slash :
    (getFileByName.Handler sampleRuntime downObsidian []
        { Arguments := [("filename", Any.string ".md")] }).2 =
      [searchCall sampleRuntime downObsidian ""] ∧
    getFileByName.bareName ".md" = "" ∧
    (getFileByName.Handler sampleRuntime downObsidian []
        { Arguments := [("filename", Any.string "/")] }).2 =
      [searchCall sampleRuntime downObsidian "/"] ∧
    getFileByName.bareName "/" = "/" := by
  refine ⟨?_, by decide, ?_, by decide⟩
  · have h : getFileByName.bareName ".md" = "" := by decide
    have hg := GetString_of_string { Arguments := [("filename", Any.string ".md")] }
      "filename" "" ".md" rfl
    rw [getFileByName_eq, hg, if_neg (by decide), afterBackend_history, h]
    rfl
  · have h : getFileByName.bareName "/" = "/" := by decide
    have hg := GetString_of_string { Arguments := [("filename", Any.string "/")] }
      "filename" "" "/" rfl
    rw [getFileByName_eq, hg, if_neg (by decide), afterBackend_history, h]
    rfl

/-- C14, amended: for a non-empty `filename` parameter the handler calls `GetFileByName` with
`Base(filename)` with its `Ext` taken off the end (name followed by extension is the last path
element); `dir/note.md` gives `note`. The name holds no `/` when the parameter has a character
other than `/`, and is `/` when it has none; it is empty exactly when the last path element is
a dot followed by no further dot (such as `.md`). -/
theorem C14_bare_name_passed (rt : Runtime) (o : Obsidian) (hist : List Call)
    (request : CallToolRequest) (filename : String)
    (hf : request.Arguments.lookup "filename" = some (Any.string filename))
    (hne : filename ≠ "") :
    getFileByName.Handler rt o hist request =
      afterBackend (marshalOrError rt.marshalFiles)
        (Obsidian.GetFileByName rt o hist (getFileByName.bareName filename)
          (request.GetBool "include_content" false)) ∧
    (getFileByName.bareName filename).data ++ (Ext (Base filename)).data
      = (Base filename).data ∧
    ((∃ c ∈ filename.data, c ≠ '/') → '/' ∉ (getFileByName.bareName filename).data) ∧
    ((∀ c ∈ filename.data, c = '/') → getFileByName.bareName filename = "/") ∧
    (getFileByName.bareName filename = "" ↔
      ∃ t, (Base filename).data = '.' :: t ∧ '.' ∉ t) ∧
    getFileByName.bareName "dir/note.md" = "note" := by
  have hg := GetString_of_string request "filename" "" filename hf
  have hdata : filename.data ≠ [] := by
    intro h
    apply hne
    cases filename
    simp_all
  refine ⟨?_, bareName_append_ext filename, ?_, ?_, ?_, by decide⟩
  · rw [getFileByName_eq, hg, if_neg hne]
  · intro hex hmem
    rw [bareName_data] at hmem
    have hmem2 := List.mem_of_mem_take hmem
    rcases baseChars_cases filename.data with ⟨h1, _⟩ | ⟨_, hall, _⟩ | ⟨_, _, hfree⟩
    · exact hdata h1
    · obtain ⟨c, hc, hcne⟩ := hex
      exact hcne (hall c hc)
    · exact hfree hmem2
  · intro hall
    rcases baseChars_cases filename.data with ⟨h1, _⟩ | ⟨_, _, hb⟩ | ⟨⟨c, hc, hcne⟩, _, _⟩
    · exact absurd h1 hdata
    · have hd := bareName_data filename
      rw [hb] at hd
      have : (getFileByName.bareName filename).data = ['/'] := by
        rw [hd]; decide
      cases hn : getFileByName.bareName filename
      rw [hn] at this
      simp only at this
      subst this
      rfl
    · exact absurd (hall c hc) hcne
  · have happ := bareName_append_ext filename
    have hEB : (Ext (Base filename)).data = extChars (baseChars filename.data) := rfl
    have hB : (Base filename).data = baseChars filename.data := rfl
    constructor
    · intro hempty
      rw [hempty] at happ
      have hext : extChars (baseChars filename.data) = baseChars filename.data := by
        rw [← hEB, ← hB, ← happ]
        rfl
      rcases extChars_form (baseChars filename.data) with h0 | ⟨t, ht, hdot⟩
      · rcases baseChars_cases filename.data with ⟨_, hb⟩ | ⟨_, _, hb⟩ | ⟨_, hb, _⟩
        · rw [hb] at hext h0; rw [h0] at hext; simp at hext
        · rw [hb] at hext h0; rw [h0] at hext; simp at hext
        · rw [h0] at hext; exact absurd hext.symm hb
      · exact ⟨t, by rw [hB, ← hext, ht], hdot⟩
    · rintro ⟨t, ht, hdot⟩
      rw [hB] at ht
      have hslash : '/' ∉ t := by
        rcases baseChars_cases filename.data with ⟨_, hb⟩ | ⟨_, _, hb⟩ | ⟨_, _, hfree⟩
        · rw [hb] at ht
          simp only [List.cons.injEq, true_and] at ht
          rw [← ht]; simp
        · rw [hb] at ht
          simp at ht
        · intro hm
          apply hfree
          rw [ht]
          exact List.mem_cons_of_mem _ hm
      have hext := extChars_dot_only t hdot hslash
      have hd := bareName_data filename
      rw [ht, hext] at hd
      simp only [Nat.sub_self, List.take_zero] at hd
      cases hn : getFileByName.bareName filename
      rw [hn] at hd
      simp only at hd
      subst hd
      rfl

/-- C14 amended, at the parameter `dir/note.md`. -/
theorem C14_bare_name_passed_witness :
    (getFileByName.Handler sampleRuntime downObsidian []
        { Arguments := [("filename", Any.string "dir/note.md")] }) =
      afterBackend (marshalOrError sampleRuntime.marshalFiles)
        (Obsidian.GetFileByName sampleRuntime downObsidian []
          (getFileByName.bareName "dir/note.md") false) ∧
    '/' ∉ (getFileByName.bareName "dir/note.md").data :=
  ⟨(C14_bare_name_passed sampleRuntime downObsidian []
      { Arguments := [("filename", Any.string "dir/note.md")] } "dir/note.md" rfl
      (by decide)).1,
   (C14_bare_name_passed sampleRuntime downObsidian []
      { Arguments := [("filename", Any.string "dir/note.md")] } "dir/note.md" rfl
      (by decide)).2.2.1 ⟨'d', by decide, by decide⟩⟩

end McpObsidian
